import Mathlib

/-! Shallow embedding of the battery power / thermal modeling core of the repository:
scripts/model_battery_soc_v2_thermal1.py, scripts/scenario_covariate_adjustment.py,
scripts/model_eval_ood_v2.py, scripts/fit_i2r_internal_resistance.py and
scripts/test_physical_leak_bg_terms.py.

Modeling conventions, used consistently below:
 - Floating point numbers are modelled as exact rationals (ℚ).  A NaN cell (a missing
   or unparseable value, i.e. the result of pandas to_numeric(errors="coerce")) is
   modelled as Option.none.  The dt_s column additionally models the infinities,
   because the simulators explicitly guard on np.isfinite(dt).
 - The float transcendental functions are passed as explicit oracle parameters:
   E : ℚ → ℚ stands for np.exp and S : ℚ → ℚ stands for the np.sqrt used inside
   np.std.  Every concrete instance in this file only ever evaluates E on the
   argument 0, where the float exp is exactly 1, and only reaches S on dead branches.
 - np.linalg.solve and np.linalg.lstsq are modelled by exact Gaussian elimination
   over ℚ (gaussSolve below).  On a nonsingular square system this is exactly the
   unique solution, i.e. exactly what np.linalg.solve computes (up to float rounding);
   on a singular but consistent system it returns a particular solution with the free
   variables set to 0 (np.linalg.lstsq returns the minimum-norm solution instead; the
   two agree on all full-rank systems).
 - np.linalg.lstsq X y is modelled through its normal equations XᵀX β = Xᵀy, and the
   sqrt-weighted re-solve of the Huber IRLS loop through the weighted normal
   equations XᵀWX β = XᵀWy, into which the square roots cancel exactly.
 - The I²R fitter's row mask does not exclude rows whose SOC / CPU-temperature
   covariates are NaN, so its design matrix and solve are modelled over Option ℚ
   with NaN-propagating IEEE arithmetic (oadd, osub, omul, odiv, omax and the
   O-suffixed solver below): none stands for NaN, a comparison against NaN is
   false, and a NaN pivot head passes the head ≠ 0 pivot test exactly as in
   floating point.
-/

/-- Parsed numeric cell of the dt_s column: a finite rational, one of the two float
infinities, or NaN (missing / unparseable input). -/
inductive FV where
  | num (q : ℚ)
  | pinf
  | ninf
  | nan
deriving DecidableEq

namespace FV

/-- Series.fillna d on one dt cell: NaN is replaced by d, infinities survive. -/
def fillna (d : ℚ) : FV → FV
  | .nan => .num d
  | v => v

/-- Float comparison (x > 0): true for +inf, false for NaN and -inf. -/
def isPos : FV → Bool
  | .num q => decide (0 < q)
  | .pinf => true
  | _ => false

/-- The simulators' per-step guard `np.isfinite(dti) and dti > 0`, returning the
usable step width. -/
def usableDt : FV → Option ℚ
  | .num q => if 0 < q then some q else none
  | _ => none

end FV

/-- Forward fill (pandas Series.ffill) with an explicit carried last-valid value. -/
def ffillGo (cur : Option ℚ) : List (Option ℚ) → List (Option ℚ)
  | [] => []
  | x :: xs =>
    match x with
    | some q => some q :: ffillGo (some q) xs
    | none => cur :: ffillGo cur xs

/-- pandas Series.ffill. -/
def ffill (l : List (Option ℚ)) : List (Option ℚ) := ffillGo none l

/-- pandas Series.bfill (backward fill = reversed forward fill). -/
def bfill (l : List (Option ℚ)) : List (Option ℚ) := (ffillGo none l.reverse).reverse

/-- Series.ffill().bfill(): after this a hole survives only when the whole column
is NaN. -/
def fillFB (l : List (Option ℚ)) : List (Option ℚ) := bfill (ffill l)

/-- Series.dropna().iloc[0]: the first valid value of a column. -/
def firstValid : List (Option ℚ) → Option ℚ
  | [] => none
  | some q :: _ => some q
  | none :: xs => firstValid xs

/-- Series.isna().all(). -/
def allNone (l : List (Option ℚ)) : Bool := l.all Option.isNone

/-- Insertion step of a stable insertion sort under a Bool preorder. -/
def insertLe {α : Type} (le : α → α → Bool) (x : α) : List α → List α
  | [] => [x]
  | y :: ys => if le x y then x :: y :: ys else y :: insertLe le x ys

/-- Stable insertion sort, modeling DataFrame.sort_values / Python sorted. -/
def isortBy {α : Type} (le : α → α → Bool) (l : List α) : List α :=
  l.foldr (insertLe le) []

/-- Ascending sort on rationals (used by the median). -/
def qsortAsc (l : List ℚ) : List ℚ := isortBy (fun a b => decide (a ≤ b)) l

/-- np.median of a list of (finite) floats: sort and take the middle element, or the
average of the two middle elements.  (numpy returns NaN on an empty input; the 0
returned here is junk that the pipeline never uses on an empty column.) -/
def medianQ (l : List ℚ) : ℚ :=
  let s := qsortAsc l
  let n := s.length
  if n = 0 then 0
  else if n % 2 = 1 then s.getD (n / 2) 0
  else (s.getD (n / 2 - 1) 0 + s.getD (n / 2) 0) / 2

/-- np.nanmin over an already NaN-free column, with the caller's fallback d for the
empty case (where numpy would produce NaN and the source falls back explicitly). -/
def minQD (d : ℚ) : List ℚ → ℚ
  | [] => d
  | x :: xs => xs.foldl min x

/-- Arithmetic mean (Series.mean over a NaN-free column; junk 0 on empty). -/
def meanQ (l : List ℚ) : ℚ := l.sum / l.length

/-- Dot product of two rational lists (trailing elements of the longer list are
ignored, as with zip). -/
def dotL (a b : List ℚ) : ℚ := (List.zipWith (· * ·) a b).sum

/-- Three-way zip, used to bundle the per-step inputs of the SOC simulator. -/
def zip3 {α β γ : Type} : List α → List β → List γ → List (α × β × γ)
  | a :: as, b :: bs, c :: cs => (a, b, c) :: zip3 as bs cs
  | _, _, _ => []

/-- Explicit-Euler state trace: the list [s₀, f s₀ x₀, f (f s₀ x₀) x₁, ...], of
length steps.length + 1.  This is the shape of every simulation loop in
model_battery_soc_v2_thermal1.py: start from the initial state and append one
updated state per step. -/
def scanSt {σ ι : Type} (f : σ → ι → σ) (init : σ) : List ι → List σ
  | [] => [init]
  | x :: xs => init :: scanSt f (f init x) xs

/-- Find the first row of an augmented system whose leading coefficient is nonzero;
return it together with the remaining rows (order preserved). -/
def findPivot : List (List ℚ × ℚ) → Option ((List ℚ × ℚ) × List (List ℚ × ℚ))
  | [] => none
  | r :: rs =>
    if r.1.headD 0 ≠ 0 then some (r, rs)
    else
      match findPivot rs with
      | some (p, rest) => some (p, r :: rest)
      | none => none

/-- Eliminate the leading column of row r using pivot row p. -/
def rowElim (p r : List ℚ × ℚ) : List ℚ × ℚ :=
  let c := r.1.headD 0 / p.1.headD 0
  (List.zipWith (fun a b => a - c * b) r.1.tail p.1.tail, r.2 - c * p.2)

/-- Exact Gaussian elimination with back substitution over ℚ on an augmented system
with n unknowns.  Models np.linalg.solve (exact on nonsingular systems); on a
singular consistent system (as produced by the always-consistent normal equations of
np.linalg.lstsq) it returns a particular solution with free variables set to 0. -/
def gaussElim : (n : Nat) → List (List ℚ × ℚ) → List ℚ
  | 0, _ => []
  | n + 1, rows =>
    match findPivot rows with
    | none => 0 :: gaussElim n (rows.map fun r => (r.1.tail, r.2))
    | some (p, rest) =>
      let xs := gaussElim n (rest.map (rowElim p))
      ((p.2 - dotL p.1.tail xs) / p.1.headD 0) :: xs

/-- Solve the n-unknown linear system A x = b. -/
def gaussSolve (n : Nat) (A : List (List ℚ)) (b : List ℚ) : List ℚ :=
  gaussElim n (A.zip b)

/-- Entry (i,j) of XᵀX over the row-major design matrix X. -/
def gramEntry (X : List (List ℚ)) (i j : Nat) : ℚ :=
  (X.map fun r => r.getD i 0 * r.getD j 0).sum

/-- XᵀX + ridge·I for a p-column design matrix, the left-hand side of every ridge /
normal-equation solve in the repository. -/
def gramRidge (p : Nat) (X : List (List ℚ)) (ridge : ℚ) : List (List ℚ) :=
  (List.range p).map fun i =>
    (List.range p).map fun j =>
      gramEntry X i j + if i = j then ridge else 0

/-- Xᵀy for a p-column design matrix. -/
def xty (p : Nat) (X : List (List ℚ)) (y : List ℚ) : List ℚ :=
  (List.range p).map fun i =>
    ((List.zipWith (fun r yi => r.getD i 0 * yi) X y).sum)

/-- The shared ridge regression core `_ridge_fit` / `_ols_beta`:
solve (XᵀX + alpha·I) beta = Xᵀy for a p-column design matrix. -/
def ridgeFitL (p : Nat) (X : List (List ℚ)) (y : List ℚ) (alpha : ℚ) : List ℚ :=
  gaussSolve p (gramRidge p X alpha) (xty p X y)

/-- IEEE addition with NaN propagation on exact rationals (none = NaN). -/
def oadd : Option ℚ → Option ℚ → Option ℚ
  | some a, some b => some (a + b)
  | _, _ => none

/-- IEEE subtraction with NaN propagation. -/
def osub : Option ℚ → Option ℚ → Option ℚ
  | some a, some b => some (a - b)
  | _, _ => none

/-- IEEE multiplication with NaN propagation. -/
def omul : Option ℚ → Option ℚ → Option ℚ
  | some a, some b => some (a * b)
  | _, _ => none

/-- IEEE division with NaN propagation.  A zero divisor yields none. -/
def odiv : Option ℚ → Option ℚ → Option ℚ
  | some a, some b => if b = 0 then none else some (a / b)
  | _, _ => none

/-- np.maximum: NaN-propagating maximum. -/
def omax : Option ℚ → Option ℚ → Option ℚ
  | some a, some b => some (max a b)
  | _, _ => none

/-- np.dot over NaN-aware vectors: any NaN term makes the sum NaN. -/
def dotLO (a b : List (Option ℚ)) : Option ℚ :=
  (List.zipWith omul a b).foldl oadd (some 0)

/-- Pivot search over NaN-aware rows: the usability test head ≠ 0 is an IEEE
comparison, true for NaN, so a NaN head is accepted as pivot. -/
def findPivotO : List (List (Option ℚ) × Option ℚ) →
    Option ((List (Option ℚ) × Option ℚ) × List (List (Option ℚ) × Option ℚ))
  | [] => none
  | r :: rs =>
    if r.1.headD (some 0) ≠ some 0 then some (r, rs)
    else
      match findPivotO rs with
      | some (p, rest) => some (p, r :: rest)
      | none => none

/-- NaN-aware row elimination. -/
def rowElimO (p r : List (Option ℚ) × Option ℚ) : List (Option ℚ) × Option ℚ :=
  let c := odiv (r.1.headD (some 0)) (p.1.headD (some 0))
  (List.zipWith (fun a b => osub a (omul c b)) r.1.tail p.1.tail,
    osub r.2 (omul c p.2))

/-- NaN-aware Gaussian elimination with back substitution. -/
def gaussElimO : (n : Nat) → List (List (Option ℚ) × Option ℚ) → List (Option ℚ)
  | 0, _ => []
  | n + 1, rows =>
    match findPivotO rows with
    | none => some 0 :: gaussElimO n (rows.map fun r => (r.1.tail, r.2))
    | some (p, rest) =>
      let xs := gaussElimO n (rest.map (rowElimO p))
      odiv (osub p.2 (dotLO p.1.tail xs)) (p.1.headD (some 0)) :: xs

/-- NaN-aware linear solve. -/
def gaussSolveO (n : Nat) (A : List (List (Option ℚ))) (b : List (Option ℚ)) :
    List (Option ℚ) :=
  gaussElimO n (A.zip b)

/-- NaN-aware Gram entry. -/
def gramEntryO (X : List (List (Option ℚ))) (i j : Nat) : Option ℚ :=
  (X.map fun r => omul (r.getD i (some 0)) (r.getD j (some 0))).foldl oadd (some 0)

/-- NaN-aware XᵀX + ridge·I. -/
def gramRidgeO (p : Nat) (X : List (List (Option ℚ))) (ridge : ℚ) :
    List (List (Option ℚ)) :=
  (List.range p).map fun i =>
    (List.range p).map fun j =>
      oadd (gramEntryO X i j) (some (if i = j then ridge else 0))

/-- NaN-aware Xᵀy. -/
def xtyO (p : Nat) (X : List (List (Option ℚ))) (y : List (Option ℚ)) :
    List (Option ℚ) :=
  (List.range p).map fun i =>
    (List.zipWith (fun r yi => omul (r.getD i (some 0)) yi) X y).foldl oadd (some 0)

/-- NaN-aware _ols_beta. -/
def ridgeFitLO (p : Nat) (X : List (List (Option ℚ))) (y : List (Option ℚ))
    (alpha : ℚ) : List (Option ℚ) :=
  gaussSolveO p (gramRidgeO p X alpha) (xtyO p X y)

/-- One row of the model input table (one telemetry Sample).  All numeric cells are
Option ℚ (none = NaN) except dt_s, which keeps the extended FV representation
because the simulators guard on its finiteness explicitly. -/
structure Sample where
  run_name : String
  scenario : String
  t_s : Option ℚ
  dt_s : FV
  soc_pct : Option ℚ
  voltage_mV : Option ℚ
  temperature_C : Option ℚ
  temperature_cpu_C : Option ℚ
  power_total_mW : Option ℚ
  power_cpu_mW : Option ℚ
  power_screen_mW : Option ℚ
  is_gps_on : Option ℚ
  cellular_on : Option ℚ
  power_pred_mW : Option ℚ
deriving DecidableEq

/-- Extract one numeric column (the `_col_num` helper; the to_numeric coercion has
already happened in the Option ℚ cell representation). -/
def colNum (f : Sample → Option ℚ) (df : List Sample) : List (Option ℚ) := df.map f

/-- Ordering on t_s used by sort_values("t_s"): NaN keys go last. -/
def tLe (a b : Sample) : Bool :=
  match a.t_s, b.t_s with
  | some x, some y => decide (x ≤ y)
  | some _, none => true
  | none, some _ => false
  | none, none => true

/-- df.sort_values("t_s").reset_index(drop=True), modelled as a stable sort. -/
def sortByT (df : List Sample) : List Sample := isortBy tLe df

/-- The filled dt column `_col_num(df, "dt_s").fillna(0.0)` of a (sorted) run. -/
def dtFilled (df : List Sample) : List FV := df.map fun s => s.dt_s.fillna 0

/-- The heating proxy `np.clip(power_cpu_mW.fillna(0), 0, None) / 1000` (W). -/
def pHeat (df : List Sample) : List ℚ :=
  df.map fun s => max 0 (s.power_cpu_mW.getD 0) / 1000

/-- Fitted 1-state thermal parameters (dataclass ThermalParams). -/
structure ThermalParams where
  a_per_s : ℚ
  b_C_per_J : ℚ
  t_amb_C : ℚ
deriving DecidableEq

/-- Fitted 2-state thermal parameters (dataclass ThermalParams2). -/
structure ThermalParams2 where
  a_cpu_per_s : ℚ
  b_cpu_C_per_J : ℚ
  a_batt_per_s : ℚ
  b_couple_per_s : ℚ
  t_amb_C : ℚ
deriving DecidableEq

/-- The CPU temperature column of a sorted run after ffill().bfill(), with values
extracted; the source's final fillna(median) is a no-op because ffill+bfill leave no
hole once the column has at least one valid value (the all-NaN case takes the early
fallback branch of the fitters instead, so the 0 default here is never observable). -/
def tCpuFilled (df : List Sample) : List ℚ :=
  (fillFB (colNum (fun s => s.temperature_cpu_C) df)).map (fun o => o.getD 0)

/-- Battery/case temperature column of a sorted run, same treatment. -/
def tBattFilled (df : List Sample) : List ℚ :=
  (fillFB (colNum (fun s => s.temperature_C) df)).map (fun o => o.getD 0)

/-- Ambient proxy of fit_thermal_1state: `t_amb = nanmin(t)`; on an empty run numpy
would give NaN and the source falls through its isfinite guard to 40.0. -/
def tAmb1 (df0 : List Sample) : ℚ := minQD 40 (tCpuFilled (sortByT df0))

/-- Usable finite-difference regression samples of fit_thermal_1state: one triple
(x1, x2, z) = (T_i - T_amb, P_heat_i, (T_{i+1}-T_i)/dt_i) per consecutive pair with
finite positive dt_i. -/
def pairs1 (tamb : ℚ) : List FV → List ℚ → List ℚ → List (ℚ × ℚ × ℚ)
  | d :: ds, ti :: tj :: ts, p :: ps =>
    match d.usableDt with
    | some dti => (ti - tamb, p, (tj - ti) / dti) :: pairs1 tamb ds (tj :: ts) ps
    | none => pairs1 tamb ds (tj :: ts) ps
  | _, _, _ => []

/-- The regression sample list actually built by fit_thermal_1state on a run. -/
def thermalSamples1 (df0 : List Sample) : List (ℚ × ℚ × ℚ) :=
  let df := sortByT df0
  pairs1 (tAmb1 df0) (dtFilled df) (tCpuFilled df) (pHeat df)

/-- Ridge solve of the two-regressor thermal system (`_ridge_fit` with the 2-column
design [x1 x2] and target z), returning (beta0, beta1). -/
def ridgeFit2 (samples : List (ℚ × ℚ × ℚ)) (alpha : ℚ) : ℚ × ℚ :=
  let X := samples.map fun s => [s.1, s.2.1]
  let z := samples.map fun s => s.2.2
  let beta := ridgeFitL 2 X z alpha
  (beta.getD 0 0, beta.getD 1 0)

/-- Post-hoc sign clamp of the 1-state cooling coefficient:
`if not isfinite(a) or a >= -1e-6: a = -1/2000` (the isfinite disjunct is vacuous
over ℚ). -/
def clampA1 (a : ℚ) : ℚ := if -(1 / 1000000) ≤ a then -(1 / 2000) else a

/-- Post-hoc sign clamp of a heating/coupling coefficient:
`if not isfinite(b) or b < 0: b = 0`. -/
def clampB (b : ℚ) : ℚ := if b < 0 then 0 else b

/-- fit_thermal_1state: 1-state thermal ODE fit with ambient = in-run minimum,
ridge-regularized finite-difference regression, sign clamping, and the documented
fallbacks (all-NaN temperature; fewer than 10 usable derivative pairs). -/
def fitThermal1State (df0 : List Sample) : ThermalParams :=
  if allNone (colNum (fun s => s.temperature_cpu_C) (sortByT df0)) then
    ⟨-(1 / 2000), 0, 40⟩
  else if (thermalSamples1 df0).length < 10 then
    ⟨-(1 / 2000), 0, tAmb1 df0⟩
  else
    ⟨clampA1 (ridgeFit2 (thermalSamples1 df0) (1 / 1000)).1,
     clampB (ridgeFit2 (thermalSamples1 df0) (1 / 1000)).2, tAmb1 df0⟩

/-- Per-step update of simulate_temperature_1state: explicit Euler on
dT/dt = a (T - T_amb) + b P_heat, holding the state on a non-finite or
non-positive dt. -/
def temp1Step (th : ThermalParams) (Ti : ℚ) (x : FV × ℚ) : ℚ :=
  match x.1.usableDt with
  | none => Ti
  | some dti => Ti + (th.a_per_s * (Ti - th.t_amb_C) + th.b_C_per_J * x.2) * dti

/-- simulate_temperature_1state: forward-Euler temperature trace of a run. -/
def simulateTemperature1State (df0 : List Sample) (th : ThermalParams) : List ℚ :=
  let df := sortByT df0
  let t0 := (firstValid (colNum (fun s => s.temperature_cpu_C) df)).getD th.t_amb_C
  let steps := ((dtFilled df).zip (pHeat df)).take (df.length - 1)
  scanSt (temp1Step th) t0 steps

/-- Ambient proxy of fit_thermal_2state: minimum of the (filled) battery column,
with the same empty-run fallback chain ending at 40. -/
def tAmb2 (df0 : List Sample) : ℚ := minQD 40 (tBattFilled (sortByT df0))

/-- One usable finite-difference sample of fit_thermal_2state.  The source appends
to its two regressions under one shared dt guard, so both sample lists always have
equal length; they are modelled as one list of bundled rows. -/
structure Pair2 where
  x1 : ℚ
  x2 : ℚ
  z1 : ℚ
  x3 : ℚ
  x4 : ℚ
  z2 : ℚ
deriving DecidableEq

/-- The bundled regression samples of fit_thermal_2state. -/
def pairs2 (tamb : ℚ) :
    List FV → List ℚ → List ℚ → List ℚ → List Pair2
  | d :: ds, tc :: tc2 :: tcs, tb :: tb2 :: tbs, p :: ps =>
    match d.usableDt with
    | some dti =>
      { x1 := tc - tb, x2 := p, z1 := (tc2 - tc) / dti,
        x3 := tb - tamb, x4 := tc - tb, z2 := (tb2 - tb) / dti }
        :: pairs2 tamb ds (tc2 :: tcs) (tb2 :: tbs) ps
    | none => pairs2 tamb ds (tc2 :: tcs) (tb2 :: tbs) ps
  | _, _, _, _ => []

/-- The regression sample list actually built by fit_thermal_2state on a run. -/
def thermalSamples2 (df0 : List Sample) : List Pair2 :=
  let df := sortByT df0
  pairs2 (tAmb2 df0) (dtFilled df) (tCpuFilled df) (tBattFilled df) (pHeat df)

/-- The 2-state fallback parameters (slow cooling, zero heating and coupling). -/
def thermal2Default (tamb : ℚ) : ThermalParams2 :=
  ⟨-(1 / 200), 0, -(1 / 2000), 0, tamb⟩

/-- Fallback ambient of the all-NaN branch of fit_thermal_2state:
`nanmedian(t_cpu) if t_cpu has a valid value else 40`. -/
def tAmb2Fallback (df0 : List Sample) : ℚ :=
  let c := colNum (fun s => s.temperature_cpu_C) (sortByT df0)
  if allNone c then 40 else medianQ (tCpuFilled (sortByT df0))

/-- Post-hoc clamp of a 2-state cooling coefficient:
`if not isfinite(a) or a > 0: a = d` (note: strictly positive, 0 is kept). -/
def clampA2 (d a : ℚ) : ℚ := if 0 < a then d else a

/-- fit_thermal_2state: the fast(CPU)+slow(battery) node fit with shared dt guard,
ridge solves, sign clamping, and fallbacks. -/
def fitThermal2State (df0 : List Sample) : ThermalParams2 :=
  if allNone (colNum (fun s => s.temperature_cpu_C) (sortByT df0))
      || allNone (colNum (fun s => s.temperature_C) (sortByT df0)) then
    thermal2Default (tAmb2Fallback df0)
  else if (thermalSamples2 df0).length < 10 then
    thermal2Default (tAmb2 df0)
  else
    ⟨clampA2 (-(1 / 2000))
       (ridgeFit2 ((thermalSamples2 df0).map fun r => (r.x1, r.x2, r.z1)) (1 / 1000)).1,
     clampB (ridgeFit2 ((thermalSamples2 df0).map fun r => (r.x1, r.x2, r.z1)) (1 / 1000)).2,
     clampA2 (-(1 / 5000))
       (ridgeFit2 ((thermalSamples2 df0).map fun r => (r.x3, r.x4, r.z2)) (1 / 1000)).1,
     clampB (ridgeFit2 ((thermalSamples2 df0).map fun r => (r.x3, r.x4, r.z2)) (1 / 1000)).2,
     tAmb2 df0⟩

/-- Per-step update of simulate_temperature_2state on the (T_cpu, T_batt) state. -/
def temp2Step (th : ThermalParams2) (st : ℚ × ℚ) (x : FV × ℚ) : ℚ × ℚ :=
  match x.1.usableDt with
  | none => st
  | some dti =>
    let dcpu := th.a_cpu_per_s * (st.1 - st.2) + th.b_cpu_C_per_J * x.2
    let dbat := th.a_batt_per_s * (st.2 - th.t_amb_C) + th.b_couple_per_s * (st.1 - st.2)
    (st.1 + dcpu * dti, st.2 + dbat * dti)

/-- simulate_temperature_2state: returns (T_cpu_hat, T_batt_hat, T_leak_hat), the
third being the convex mix w·T_cpu + (1-w)·T_batt with w = clip(mix, 0, 1). -/
def simulateTemperature2State (df0 : List Sample) (th : ThermalParams2) (mix : ℚ) :
    List ℚ × List ℚ × List ℚ :=
  let df := sortByT df0
  let tc0 := (firstValid (colNum (fun s => s.temperature_cpu_C) df)).getD th.t_amb_C
  let tb0 := (firstValid (colNum (fun s => s.temperature_C) df)).getD th.t_amb_C
  let steps := ((dtFilled df).zip (pHeat df)).take (df.length - 1)
  let tr := scanSt (temp2Step th) (tc0, tb0) steps
  let w := min 1 (max 0 mix)
  (tr.map Prod.fst, tr.map Prod.snd, tr.map fun s => w * s.1 + (1 - w) * s.2)

/-- The processed voltage series of simulate_soc:
`v = voltage_mV/1000` then `ffill().bfill().fillna(median if any valid else 3.85)`.
When at least one voltage is valid, ffill+bfill leave no hole and the final fillna
(with the median) is a no-op; when none is valid the whole series becomes the
nominal 3.85 V. -/
def vSeries (df : List Sample) : List ℚ :=
  let vr := (colNum (fun s => s.voltage_mV) df).map (Option.map (· / 1000))
  if allNone vr then vr.map fun _ => 77 / 20
  else (fillFB vr).map fun o => o.getD 0

/-- Initial SOC of simulate_soc: first valid soc_pct divided by 100, else 0.5. -/
def socInit (df : List Sample) : ℚ :=
  match firstValid (colNum (fun s => s.soc_pct) df) with
  | some s0 => s0 / 100
  | none => 1 / 2

/-- Per-step update of simulate_soc.  The power entry is still an Option because
`power_pred_mW.ffill().bfill()` stays NaN when the whole column is NaN; in that case
the float computation `min(1.0, max(0.0, soc - nan))` evaluates to 0.0 under
Python's semantics of min/max over NaN (a NaN never wins a max/min against the
first argument), which is modelled explicitly here. -/
def socStep (denom : ℚ) (s : ℚ) (x : FV × ℚ × Option ℚ) : ℚ :=
  match x.1.usableDt with
  | none => s
  | some dti =>
    let vi := if x.2.1 ≤ 0 then 77 / 20 else x.2.1
    match x.2.2 with
    | none => 0
    | some pi => min 1 (max 0 (s - pi / (vi * denom) * dti))

/-- simulate_soc: forward-Euler SOC integration with clamping of every computed
step into [0,1] (the initial element is taken from the data unclamped). -/
def simulateSoc (df0 : List Sample) (c_eff_mAh : ℚ) : List ℚ :=
  let df := sortByT df0
  let p := fillFB (colNum (fun s => s.power_pred_mW) df)
  let denom := 3600 * c_eff_mAh
  let steps := (zip3 (dtFilled df) (vSeries df) p).take (df.length - 1)
  scanSt (socStep denom) (socInit df) steps

/-- Fitted electrical power model parameters (dataclass ModelParamsV2). -/
structure ModelParamsV2 where
  p_base_mW : ℚ
  k_screen : ℚ
  k_cpu : ℚ
  k_leak_mW : ℚ
  leak_gamma_per_C : ℚ
  leak_tref_C : ℚ
  k_gps_off_mW : ℚ
  k_cellular_off_mW : ℚ
  c_eff_mAh : ℚ
deriving DecidableEq

/-- Row filtering and column fills at the top of fit_power_model_v2:
dt_s := dt_s.fillna(0) and keep rows with dt_s > 0; keep rows with a measured
power_total_mW.  (The screen/cpu/gps/cellular fills are applied at the use sites
through getD with the same defaults 0, 0, 0 and 1.) -/
def pmPrep (tbl : List Sample) : List Sample :=
  ((tbl.map fun s => { s with dt_s := s.dt_s.fillna 0 }).filter
      fun s => s.dt_s.isPos).filter
    fun s => s.power_total_mW.isSome

/-- String comparison (byte-wise lexicographic), used for the sorted group keys of
pandas groupby and for Python sorted over run names. -/
def lexLe : List Char → List Char → Bool
  | [], _ => true
  | _ :: _, [] => false
  | a :: as, b :: bs => if a < b then true else if b < a then false else lexLe as bs

/-- Bool String order. -/
def strLe (a b : String) : Bool := lexLe a.toList b.toList

/-- Distinct run names in sorted order (pandas groupby sorts its keys; Python's
sorted(unique) does the same for the evaluation harness). -/
def runNamesSorted (tbl : List Sample) : List String :=
  isortBy strLe ((tbl.map fun s => s.run_name).dedup)

/-- One row of the augmented frame df2 of fit_power_model_v2: the sample plus its
simulated leak-feature temperature. -/
structure Row2 where
  s : Sample
  tleak : ℚ
deriving DecidableEq

/-- Simulated leak temperatures of one (sorted) run: the 1-state simulated CPU
temperature, or the 2-state convex mix, depending on the thermal model choice. -/
def leakTempsRun (thermal2 : Bool) (mix : ℚ) (tmp : List Sample) : List ℚ :=
  if thermal2 then (simulateTemperature2State tmp (fitThermal2State tmp) mix).2.2
  else simulateTemperature1State tmp (fitThermal1State tmp)

/-- The concatenated per-run frame df2 of fit_power_model_v2: per sorted run name,
the run's rows (sorted by t_s) zipped with their simulated leak temperatures. -/
def pmDf2 (thermal2 : Bool) (mix : ℚ) (tbl : List Sample) : List Row2 :=
  (runNamesSorted (pmPrep tbl)).flatMap fun r =>
    let tmp := sortByT ((pmPrep tbl).filter fun s => s.run_name = r)
    (tmp.zip (leakTempsRun thermal2 mix tmp)).map fun p => ⟨p.1, p.2⟩

/-- The leakage reference temperature: median simulated leak temperature. -/
def pmTRef (thermal2 : Bool) (mix : ℚ) (tbl : List Sample) : ℚ :=
  medianQ ((pmDf2 thermal2 mix tbl).map Row2.tleak)

/-- One design row [1, screen, cpu, leak] of the base power regression, with the
leak feature exp(γ·(T_leak - T_ref)) evaluated through the exp oracle E. -/
def pmFeatRow (E : ℚ → ℚ) (gamma tref : ℚ) (r : Row2) : List ℚ :=
  [1, r.s.power_screen_mW.getD 0, r.s.power_cpu_mW.getD 0,
   E (gamma * (r.tleak - tref))]

/-- The dominant-operating-point mask: GPS on and cellular on (both flags filled
with their defaults 0 resp. 1 and compared against 0.5). -/
def pmBaseMask (r : Row2) : Bool :=
  decide ((1 : ℚ) / 2 ≤ r.s.is_gps_on.getD 0) && decide ((1 : ℚ) / 2 ≤ r.s.cellular_on.getD 1)

/-- The base regression design matrix: one feature row per GPS-ON ∧ cellular-ON
sample of df2. -/
def pmBaseX (E : ℚ → ℚ) (gamma : ℚ) (thermal2 : Bool) (mix : ℚ)
    (tbl : List Sample) : List (List ℚ) :=
  ((pmDf2 thermal2 mix tbl).filter pmBaseMask).map
    (pmFeatRow E gamma (pmTRef thermal2 mix tbl))

/-- The base regression target: measured power of the same masked rows. -/
def pmBaseY (thermal2 : Bool) (mix : ℚ) (tbl : List Sample) : List ℚ :=
  ((pmDf2 thermal2 mix tbl).filter pmBaseMask).map fun r => r.s.power_total_mW.getD 0

/-- The fitted base coefficient vector [p_base, k_screen, k_cpu, k_leak]: a single
ridge-regularized solve `_ridge_fit(X, y, alpha)` on the masked design. -/
def pmBaseBeta (E : ℚ → ℚ) (tbl : List Sample) (alpha gamma : ℚ)
    (thermal2 : Bool) (mix : ℚ) : List ℚ :=
  ridgeFitL 4 (pmBaseX E gamma thermal2 mix tbl) (pmBaseY thermal2 mix tbl) alpha

/-- Base-model residual of one df2 row: measured power minus the base prediction
p0 = β·[1, screen, cpu, leak]. -/
def pmResidRow (E : ℚ → ℚ) (gamma tref : ℚ) (beta : List ℚ) (r : Row2) : ℚ :=
  r.s.power_total_mW.getD 0 - dotL (pmFeatRow E gamma tref r) beta

/-- `_run_mean_resid`: mean base-model residual of the rows of one named run, or
none when the run has no row in df2. -/
def pmRunMeanResid (E : ℚ → ℚ) (tbl : List Sample) (alpha gamma : ℚ)
    (thermal2 : Bool) (mix : ℚ) (run : String) : Option ℚ :=
  let rows := (pmDf2 thermal2 mix tbl).filter fun r => r.s.run_name = run
  if rows.length = 0 then none
  else some (meanQ (rows.map
    (pmResidRow E gamma (pmTRef thermal2 mix tbl) (pmBaseBeta E tbl alpha gamma thermal2 mix))))

/-- The GPS-OFF offset: mean residual of the designated GPS-OFF run S4 minus mean
residual of its paired GPS-ON run S4-1, clamped to ≤ 0; 0 when either is absent. -/
def pmKGpsOff (E : ℚ → ℚ) (tbl : List Sample) (alpha gamma : ℚ)
    (thermal2 : Bool) (mix : ℚ) : ℚ :=
  match pmRunMeanResid E tbl alpha gamma thermal2 mix "20260201_213514_S4",
      pmRunMeanResid E tbl alpha gamma thermal2 mix "20260201_215338_S4-1" with
  | some r4, some r41 => min 0 (r4 - r41)
  | _, _ => 0

/-- The cellular-OFF offset: mean residual of the designated cellular-OFF run
S1-HS-2 minus mean residual of the paired cellular-ON run S1-HS-1, clamped to ≤ 0;
0 when either is absent. -/
def pmKCellOff (E : ℚ → ℚ) (tbl : List Sample) (alpha gamma : ℚ)
    (thermal2 : Bool) (mix : ℚ) : ℚ :=
  match pmRunMeanResid E tbl alpha gamma thermal2 mix "20260131_230812_S1-HS-1",
      pmRunMeanResid E tbl alpha gamma thermal2 mix "20260201_174510_S1-HS-2" with
  | some rOn, some rOff => min 0 (rOff - rOn)
  | _, _ => 0

/-- fit_power_model_v2, assembled: the returned ModelParamsV2 record (the augmented
per-sample frame and the per-run thermal table it also returns carry no further
fitted quantities and are not needed by any claim). -/
def fitPowerModelV2 (E : ℚ → ℚ) (tbl : List Sample) (alpha gamma : ℚ)
    (thermal2 : Bool) (mix : ℚ) : ModelParamsV2 :=
  let beta := pmBaseBeta E tbl alpha gamma thermal2 mix
  { p_base_mW := beta.getD 0 0
    k_screen := beta.getD 1 0
    k_cpu := beta.getD 2 0
    k_leak_mW := beta.getD 3 0
    leak_gamma_per_C := gamma
    leak_tref_C := pmTRef thermal2 mix tbl
    k_gps_off_mW := pmKGpsOff E tbl alpha gamma thermal2 mix
    k_cellular_off_mW := pmKCellOff E tbl alpha gamma thermal2 mix
    c_eff_mAh := 4410 }

/-- `_huber_weights`: weight 1 on standardized residuals within the threshold c,
c/|u| beyond it. -/
def huberWeight (c u : ℚ) : ℚ := if c < |u| then c / |u| else 1

/-- Variance mean((r - mean r)²); np.std is S applied to this value, with S the
float sqrt oracle. -/
def varQ (r : List ℚ) : ℚ := meanQ (r.map fun x => (x - meanQ r) ^ 2)

/-- The robust residual scale of fit_huber_irls:
1.4826·MAD when the median absolute deviation is positive, else np.std(r) (through
the sqrt oracle S) when positive, else 1. -/
def madScale (S : ℚ → ℚ) (r : List ℚ) : ℚ :=
  let med := medianQ r
  let mad := medianQ (r.map fun x => |x - med|)
  if 0 < mad then (14826 / 10000) * mad
  else
    let sd := S (varQ r)
    if 0 < sd then sd else 1

/-- Weighted normal-equation matrix Xᵀ·diag(w)·X of the sqrt-weighted re-solve. -/
def gramW (p : Nat) (X : List (List ℚ)) (w : List ℚ) : List (List ℚ) :=
  (List.range p).map fun i =>
    (List.range p).map fun j =>
      ((List.zipWith (fun r wr => wr * (r.getD i 0 * r.getD j 0)) X w).sum)

/-- Weighted right-hand side Xᵀ·diag(w)·y. -/
def xtyW (p : Nat) (X : List (List ℚ)) (w y : List ℚ) : List ℚ :=
  (List.range p).map fun i =>
    ((List.zipWith (fun r wy => wy * r.getD i 0) X (List.zipWith (· * ·) w y)).sum)

/-- np.linalg.lstsq modelled through its (always consistent) normal equations. -/
def lstsqNE (X : List (List ℚ)) (y : List ℚ) : List ℚ :=
  let p := (X.headD []).length
  gaussSolve p (gramRidge p X 0) (xty p X y)

/-- Residual vector y - X·beta. -/
def residVec (X : List (List ℚ)) (y beta : List ℚ) : List ℚ :=
  List.zipWith (fun yi r => yi - dotL r beta) y X

/-- max |beta_new - beta|, the convergence measure of the IRLS loop. -/
def maxAbsDiff (a b : List ℚ) : ℚ :=
  (List.zipWith (fun x y => |x - y|) a b).foldr max 0

/-- One reweighted re-solve of fit_huber_irls.  In the source the weights enter as
Xw = X·√w, yw = y·√w followed by lstsq(Xw, yw); through the normal equations of
lstsq the square roots cancel exactly, giving XᵀWXβ = XᵀWy as modelled here. -/
def irlsResolve (S : ℚ → ℚ) (c : ℚ) (X : List (List ℚ)) (y beta : List ℚ) : List ℚ :=
  let r := residVec X y beta
  let s := madScale S r
  let u := r.map (· / s)
  let w := u.map (huberWeight c)
  let p := (X.headD []).length
  gaussSolve p (gramW p X w) (xtyW p X w y)

/-- The iteration loop of fit_huber_irls: up to `iters` reweighted re-solves,
stopping as soon as the coefficient vector moves by less than 1e-9. -/
def irlsLoop (S : ℚ → ℚ) (c : ℚ) (X : List (List ℚ)) (y : List ℚ) :
    Nat → List ℚ → List ℚ
  | 0, beta => beta
  | k + 1, beta =>
    let betaNew := irlsResolve S c X y beta
    if maxAbsDiff betaNew beta < 1 / 1000000000 then betaNew
    else irlsLoop S c X y k betaNew

/-- fit_huber_irls of scenario_covariate_adjustment.py: ordinary-least-squares
initial solve, then Huber-weighted iteratively reweighted least squares. -/
def fitHuberIrls (S : ℚ → ℚ) (X : List (List ℚ)) (y : List ℚ) (c : ℚ)
    (iters : Nat) : List ℚ :=
  irlsLoop S c X y iters (lstsqNE X y)

/-- Row filtering at the top of model_eval_ood_v2.main: keep rows with measured
power, then drop runs with fewer than 30 such rows. -/
def evalPrep (tbl : List Sample) : List Sample :=
  let d1 := tbl.filter fun s => s.power_total_mW.isSome
  d1.filter fun s => 30 ≤ (d1.filter fun r => r.run_name = s.run_name).length

/-- One leave-one-run-out fold: the held-out run name, the training rows (all other
runs) and the test rows (the held-out run). -/
structure Fold where
  run : String
  train : List Sample
  test : List Sample

/-- The leave-one-run-out fold list of model_eval_ood_v2.main (eval mode "looro"):
one fold per sorted distinct run name, with train mask run_name ≠ r. -/
def looroFolds (tbl : List Sample) : List Fold :=
  (runNamesSorted tbl).map fun r =>
    { run := r
      train := tbl.filter fun s => s.run_name ≠ r
      test := tbl.filter fun s => s.run_name = r }

/-- One run-level row of the merged table used by the secondary correction-term
fitters (eval_run_metrics joined with the QC summary).  The residual, squared
current and voltage are exact rationals: every use of these columns in both
fitters is behind an np.isfinite test, so their NaN rows never reach the code
modelled here.  The start SOC and start CPU temperature are Option ℚ (none = NaN,
e.g. a left-merge miss or an absent QC column): the I²R fitter's mask never
checks them although its design matrix consumes them. -/
structure CovRow where
  scenario : String
  p_meas : ℚ
  resid : ℚ
  i2 : ℚ
  soc : Option ℚ
  t_cpu : Option ℚ
  v_V : ℚ
deriving DecidableEq

/-- The fit/apply mask of fit_i2r_internal_resistance:
isfinite(resid) ∧ isfinite(i2) ∧ i2 > 1e-8 (the isfinite parts are carried by the
ℚ representation of resid and i2).  The mask does not test the SOC and
CPU-temperature covariates consumed by the design matrix. -/
def i2rMask (r : CovRow) : Bool := decide ((1 : ℚ) / 100000000 < r.i2)

/-- R_int parameterization choice of fit_i2r_internal_resistance. -/
inductive I2rModel where
  | r0
  | r0Rsoc
  | r0RsocRtpos
deriving DecidableEq

/-- One design row of the I²R loss fit: [i2] (+ [i2·(1-SOC)]) (+ [i2·max(0,T-Tref)])
depending on the model choice, in NaN-aware arithmetic: a missing SOC or CPU
temperature makes its column entry NaN, exactly as in the numpy expressions. -/
def i2rDesignRow (model : I2rModel) (tref : ℚ) (r : CovRow) : List (Option ℚ) :=
  [some r.i2]
    ++ (if model = I2rModel.r0 then []
        else [omul (some r.i2) (osub (some 1) r.soc)])
    ++ (if model = I2rModel.r0RsocRtpos then
          [omul (some r.i2) (omax (some 0) (osub r.t_cpu (some tref)))]
        else [])

/-- Number of columns of the I²R design. -/
def i2rCols (model : I2rModel) : Nat :=
  1 + (if model = I2rModel.r0 then 0 else 1)
    + (if model = I2rModel.r0RsocRtpos then 1 else 0)

/-- The regression target of every secondary correction fit: the positive part
max(0, measured - base_predicted) of the residual, in W. -/
def posResidW (r : CovRow) : ℚ := max 0 (r.resid / 1000)

/-- Optional rescale of the I²R fold (the --fit-scale branch).  The test den > 0
is an IEEE comparison, false when den is NaN (keeping s = 1.0), and the final
clamp is the Python builtin max, which returns 0.0 when its second argument is
NaN. -/
def i2rScale (fitScale : Bool) (yhat residWtr : List (Option ℚ)) : Option ℚ :=
  match fitScale, dotLO yhat yhat with
  | false, _ => some 1
  | true, none => some 1
  | true, some d =>
    if 0 < d then
      match dotLO yhat residWtr with
      | none => some 0
      | some q => some (max 0 (q / d))
    else some 1

/-- One leave-one-scenario-out fold of fit_i2r_internal_resistance.main: fit the
R_int coefficients on the training scenarios and clamp them with the
NaN-propagating np.maximum(·, 0), optionally fit the rescale s on the unclipped
training residual, and predict the np.maximum-clamped per-run loss corrections on
the held-out scenario.  With too few training rows the fold predicts zero loss
and records no coefficients. -/
def i2rFold (tbl : List CovRow) (model : I2rModel) (tref ridge : ℚ)
    (fitScale : Bool) (scen : String) :
    List (Option ℚ) × Option ℚ × List (Option ℚ) :=
  let train := tbl.filter fun r => i2rMask r && r.scenario ≠ scen
  let test := tbl.filter fun r => i2rMask r && r.scenario = scen
  let Xtr := train.map (i2rDesignRow model tref)
  let ytr := train.map fun r => some (posResidW r)
  if ytr.length < i2rCols model + 1 then ([], some 1, test.map fun _ => some 0)
  else
    let beta := (ridgeFitLO (i2rCols model) Xtr ytr ridge).map (omax (some 0))
    let s := i2rScale fitScale (Xtr.map fun row => dotLO row beta)
      (train.map fun r => some (r.resid / 1000))
    let preds := test.map fun r =>
      omax (some 0) (omul (dotLO (i2rDesignRow model tref r) beta) s)
    (beta, s, preds)

/-- Term selection of test_physical_leak_bg_terms (--terms). -/
structure PhysTerms where
  i2r : Bool
  leak : Bool
  base : Bool
deriving DecidableEq

/-- The fit/apply mask of test_physical_leak_bg_terms: unlike the I²R mask it
requires all consumed covariates finite (isfinite(resid), isfinite(v_V),
isfinite(i2), isfinite(soc), isfinite(t_cpu)) plus the discharge test i2 > 1e-8;
the resid/v_V/i2 parts are carried by the ℚ representation. -/
def physMask (r : CovRow) : Bool :=
  decide ((1 : ℚ) / 100000000 < r.i2) && r.soc.isSome && r.t_cpu.isSome

/-- One design row of the physical-terms fit at leakage exponent gamma.  The phys
mask guarantees the SOC and CPU-temperature cells are present on every masked
row, so the 0 defaults are never consulted there. -/
def physDesignRow (E : ℚ → ℚ) (terms : PhysTerms) (tref gamma : ℚ)
    (r : CovRow) : List ℚ :=
  (if terms.i2r then
      [r.i2, r.i2 * (1 - r.soc.getD 0), r.i2 * max 0 (r.t_cpu.getD 0 - tref)]
    else [])
    ++ (if terms.leak then [r.v_V * E (gamma * (r.t_cpu.getD 0 - tref))] else [])
    ++ (if terms.base then [1] else [])

/-- Number of columns of the physical-terms design. -/
def physCols (terms : PhysTerms) : Nat :=
  (if terms.i2r then 3 else 0) + (if terms.leak then 1 else 0)
    + (if terms.base then 1 else 0)

/-- Candidate fit at one gamma grid point: the clamped nonnegative coefficients and
the training mean squared error of the positive-residual target.  The source
compares the root of this mean square (times 1000); since sqrt is strictly
monotone, comparing the mean squares selects the same best gamma. -/
def physCandidate (E : ℚ → ℚ) (terms : PhysTerms) (tref ridge : ℚ)
    (train : List CovRow) (gamma : ℚ) : Option (ℚ × ℚ × List ℚ) :=
  let Xtr := train.map (physDesignRow E terms tref gamma)
  let ytr := train.map posResidW
  if physCols terms = 0 then none
  else if ytr.length < physCols terms + 1 then none
  else
    let beta := (ridgeFitL (physCols terms) Xtr ytr ridge).map (max 0)
    let msq := meanQ ((residVec Xtr ytr beta).map fun x => x ^ 2)
    some (msq, gamma, beta)

/-- Keep the better of the incumbent best candidate and a new candidate: strictly
smaller training error wins, ties keep the incumbent, exactly as the source's
`rmse < best_rmse` scan (whose initial best_rmse is +inf, modelled by none). -/
def physBetter (best : Option (ℚ × ℚ × List ℚ)) (cand : ℚ × ℚ × List ℚ) :
    Option (ℚ × ℚ × List ℚ) :=
  match best with
  | none => some cand
  | some b => if cand.1 < b.1 then some cand else some b

/-- One gamma-grid iteration of the best-candidate scan. -/
def physStep (E : ℚ → ℚ) (terms : PhysTerms) (tref ridge : ℚ)
    (train : List CovRow) (best : Option (ℚ × ℚ × List ℚ)) (g : ℚ) :
    Option (ℚ × ℚ × List ℚ) :=
  match physCandidate E terms tref ridge train g with
  | none => best
  | some cand => physBetter best cand

/-- Best-candidate selection over the whole gamma grid. -/
def physBest (E : ℚ → ℚ) (terms : PhysTerms) (tref ridge : ℚ)
    (train : List CovRow) (gammas : List ℚ) : Option (ℚ × ℚ × List ℚ) :=
  gammas.foldl (physStep E terms tref ridge train) none

/-- One leave-one-scenario-out fold of test_physical_leak_bg_terms.main: grid
search over gamma, clamped nonnegative coefficients, clamped nonnegative additive
corrections on the held-out scenario, and the optional safety clip against
clip_frac·p_meas. -/
def physFold (E : ℚ → ℚ) (tbl : List CovRow) (terms : PhysTerms)
    (tref ridge : ℚ) (gammas : List ℚ) (clipFrac : ℚ) (scen : String) :
    List ℚ × List ℚ :=
  let train := tbl.filter fun r => physMask r && r.scenario ≠ scen
  let test := tbl.filter fun r => physMask r && r.scenario = scen
  match physBest E terms tref ridge train gammas with
  | none => ([], test.map fun _ => 0)
  | some best =>
    let preds := test.map fun r =>
      max 0 (dotL (physDesignRow E terms tref best.2.1 r) best.2.2)
    let clipped :=
      if 0 < clipFrac then
        List.zipWith (fun p (r : CovRow) => min p (max 0 (clipFrac * (r.p_meas / 1000))))
          preds test
      else preds
    (best.2.2, clipped)

/-- A default well-formed telemetry sample used to build the concrete instances
below. -/
def baseSample : Sample :=
  { run_name := "r", scenario := "s", t_s := some 0, dt_s := FV.num 1,
    soc_pct := some 50, voltage_mV := some 4000, temperature_C := some 30,
    temperature_cpu_C := some 30, power_total_mW := some 100,
    power_cpu_mW := some 0, power_screen_mW := some 0, is_gps_on := some 1,
    cellular_on := some 1, power_pred_mW := none }

/-- A one-sample run whose first measured soc_pct is 150 %: its initial simulated
SOC is 1.5, outside [0,1]. -/
def c1run : List Sample := [{ baseSample with soc_pct := some 150 }]

/-- A well-behaved two-sample run (initial SOC 0.5, one Euler step of size 0.1). -/
def c1okRun : List Sample :=
  [{ baseSample with voltage_mV := some 1000, power_pred_mW := some (1 / 10) },
   { baseSample with
     t_s := some 1, voltage_mV := some 1000, power_pred_mW := some (1 / 10) }]

/-- A four-sample single-run table at constant temperature 30 °C whose measured
power is exactly its screen proxy; on it the exact least-squares fit interpolates
(so Huber IRLS converges to it at once) while the ridge solve with alpha = 2000
shrinks the coefficients. -/
def c2tbl : List Sample :=
  [{ baseSample with
     run_name := "r1", t_s := some 0, power_screen_mW := some 0,
     power_cpu_mW := some 0, power_total_mW := some 0 },
   { baseSample with
     run_name := "r1", t_s := some 1, power_screen_mW := some 1,
     power_cpu_mW := some 0, power_total_mW := some 1 },
   { baseSample with
     run_name := "r1", t_s := some 2, power_screen_mW := some 2,
     power_cpu_mW := some 1, power_total_mW := some 2 },
   { baseSample with
     run_name := "r1", t_s := some 3, power_screen_mW := some 3,
     power_cpu_mW := some 1, power_total_mW := some 3 }]

/-- A table containing none of the designated A/B calibration runs. -/
def c3tbl : List Sample := [{ baseSample with run_name := "a1" }]

/-- A two-sample run: at most one finite-difference pair, far below the minimum
of 10. -/
def c5run : List Sample :=
  [baseSample, { baseSample with t_s := some 1 }]

/-- A three-run-row covariate table for the correction-term fitters: two training
rows in scenario A with positive residual 2000 mW, one held-out row in scenario B,
all covariates present. -/
def c6tbl : List CovRow :=
  [{ scenario := "A", p_meas := 1000, resid := 2000, i2 := 1, soc := some (1 / 2),
     t_cpu := some 40, v_V := 4 },
   { scenario := "A", p_meas := 1000, resid := 2000, i2 := 1, soc := some (1 / 2),
     t_cpu := some 40, v_V := 4 },
   { scenario := "B", p_meas := 1000, resid := 2000, i2 := 1, soc := some (1 / 2),
     t_cpu := some 40, v_V := 4 }]

/-- A covariate table whose first training row has a missing (NaN) start SOC: the
row passes the I²R mask, which never checks the SOC column its design consumes. -/
def c6badTbl : List CovRow :=
  [{ scenario := "A", p_meas := 1000, resid := 2000, i2 := 1, soc := none,
     t_cpu := some 40, v_V := 4 },
   { scenario := "A", p_meas := 1000, resid := 2000, i2 := 1, soc := some (1 / 2),
     t_cpu := some 40, v_V := 4 },
   { scenario := "A", p_meas := 1000, resid := 2000, i2 := 1, soc := some (1 / 2),
     t_cpu := some 40, v_V := 4 },
   { scenario := "B", p_meas := 1000, resid := 2000, i2 := 1, soc := some (1 / 2),
     t_cpu := some 40, v_V := 4 }]

/-- One row of the 5-run evaluation table. -/
def mkRow (rn : String) (i : Nat) : Sample :=
  { baseSample with run_name := rn, t_s := some (i : ℚ) }

/-- A 5-run dataset with 30 measured-power samples per run. -/
def c7tbl : List Sample :=
  ["a", "b", "c", "d", "e"].flatMap fun rn => (List.range 30).map (mkRow rn)

/-- A two-sample run with zero predicted power everywhere but an out-of-range
initial soc_pct of 150 %: the first Euler step clamps 1.5 down to 1, so the
trajectory is not constant. -/
def c8run : List Sample :=
  [{ baseSample with soc_pct := some 150, power_pred_mW := some 0 },
   { baseSample with
     t_s := some 1, soc_pct := some 150, power_pred_mW := some 0 }]

/-- A well-behaved two-sample run with zero predicted power everywhere. -/
def c8okRun : List Sample :=
  [{ baseSample with power_pred_mW := some 0 },
   { baseSample with t_s := some 1, power_pred_mW := some 0 }]

/-- First sample of the bad-dt run: its dt_s is NaN. -/
def c9sA : Sample := { baseSample with dt_s := FV.nan }

/-- A two-sample run whose first step width is NaN. -/
def c9run : List Sample := [c9sA, { baseSample with t_s := some 1 }]

/-- A table whose only run name matches none of the hard-coded calibration runs. -/
def c10tbl : List Sample := [{ baseSample with run_name := "z9" }]

theorem scanSt_invariant {σ ι : Type} (P : σ → Prop) (f : σ → ι → σ)
    (hf : ∀ s x, P s → P (f s x)) :
    ∀ (steps : List ι) (init : σ), P init → ∀ q ∈ scanSt f init steps, P q := by
  intro steps
  induction steps with
  | nil =>
    intro init h q hq
    simp only [scanSt, List.mem_singleton] at hq
    exact hq ▸ h
  | cons x xs ih =>
    intro init h q hq
    simp only [scanSt, List.mem_cons] at hq
    rcases hq with rfl | hq
    · exact h
    · exact ih (f init x) (hf init x h) q hq

theorem scanSt_const {σ ι : Type} (f : σ → ι → σ) (s0 : σ) :
    ∀ steps : List ι, (∀ x ∈ steps, f s0 x = s0) →
      ∀ q ∈ scanSt f s0 steps, q = s0 := by
  intro steps
  induction steps with
  | nil =>
    intro _ q hq
    simpa [scanSt] using hq
  | cons x xs ih =>
    intro h q hq
    simp only [scanSt, List.mem_cons] at hq
    rcases hq with rfl | hq
    · rfl
    · have hx : f s0 x = s0 := h x (by simp)
      rw [hx] at hq
      exact ih (fun y hy => h y (by simp [hy])) q hq

theorem socStep_bounds (denom s : ℚ) (x : FV × ℚ × Option ℚ)
    (h0 : 0 ≤ s) (h1 : s ≤ 1) :
    0 ≤ socStep denom s x ∧ socStep denom s x ≤ 1 := by
  cases hdt : x.1.usableDt with
  | none => simp only [socStep, hdt]; exact ⟨h0, h1⟩
  | some dti =>
    cases hp : x.2.2 with
    | none => simp only [socStep, hdt, hp]; norm_num
    | some pi =>
      simp only [socStep, hdt, hp]
      exact ⟨le_min (by norm_num) (le_max_left 0 _), min_le_left _ _⟩

theorem mem_insertLe {α : Type} (le : α → α → Bool) (x a : α) :
    ∀ l : List α, (a ∈ insertLe le x l ↔ a = x ∨ a ∈ l) := by
  intro l
  induction l with
  | nil => simp [insertLe]
  | cons y ys ih =>
    cases h : le x y with
    | true => simp [insertLe, h]
    | false =>
      simp only [insertLe, h, Bool.false_eq_true, if_false, List.mem_cons, ih]
      tauto

theorem mem_isortBy {α : Type} (le : α → α → Bool) (a : α) :
    ∀ l : List α, (a ∈ isortBy le l ↔ a ∈ l) := by
  intro l
  induction l with
  | nil => simp [isortBy]
  | cons x xs ih =>
    show a ∈ insertLe le x (isortBy le xs) ↔ _
    rw [mem_insertLe]
    simp [ih]

theorem length_insertLe {α : Type} (le : α → α → Bool) (x : α) :
    ∀ l : List α, (insertLe le x l).length = l.length + 1 := by
  intro l
  induction l with
  | nil => simp [insertLe]
  | cons y ys ih =>
    cases h : le x y with
    | true => simp [insertLe, h]
    | false => simp [insertLe, h, ih]

theorem length_isortBy {α : Type} (le : α → α → Bool) :
    ∀ l : List α, (isortBy le l).length = l.length := by
  intro l
  induction l with
  | nil => rfl
  | cons x xs ih =>
    show (insertLe le x (isortBy le xs)).length = _
    rw [length_insertLe, ih]
    rfl

theorem ffillGo_all_some {y : ℚ} :
    ∀ (l : List (Option ℚ)) (cur : Option ℚ),
      (∀ o ∈ l, o = some y) → ffillGo cur l = l := by
  intro l
  induction l with
  | nil => intro cur _; rfl
  | cons o os ih =>
    intro cur h
    have ho := h o (by simp)
    subst ho
    simp only [ffillGo]
    rw [ih _ fun o hm => h o (by simp [hm])]

theorem fillFB_all_some {y : ℚ} (l : List (Option ℚ))
    (h : ∀ o ∈ l, o = some y) : fillFB l = l := by
  unfold fillFB bfill ffill
  rw [ffillGo_all_some l none h,
    ffillGo_all_some l.reverse none fun o ho => h o (List.mem_reverse.mp ho),
    List.reverse_reverse]

theorem zip3_mem_third {α β γ : Type} :
    ∀ {as : List α} {bs : List β} {cs : List γ} {x : α × β × γ},
      x ∈ zip3 as bs cs → x.2.2 ∈ cs := by
  intro as
  induction as with
  | nil => intro bs cs x hx; simp [zip3] at hx
  | cons a as ih =>
    intro bs cs x hx
    cases bs with
    | nil => simp [zip3] at hx
    | cons b bs =>
      cases cs with
      | nil => simp [zip3] at hx
      | cons c cs =>
        simp only [zip3, List.mem_cons] at hx
        rcases hx with rfl | hx
        · simp
        · exact List.mem_cons_of_mem _ (ih hx)

/-- Claim C1 (amended): every element of the simulated SOC trajectory produced by
simulate_soc lies in [0,1] provided the initial SOC (the run's first valid
soc_pct / 100, or the 0.5 default) lies in [0,1]; every computed step is clamped,
but the initial element itself is taken from the data unclamped. -/
theorem C1_soc_clamped (run : List Sample) (c : ℚ)
    (h0 : 0 ≤ socInit (sortByT run)) (h1 : socInit (sortByT run) ≤ 1) :
    ∀ q ∈ simulateSoc run c, 0 ≤ q ∧ q ≤ 1 := by
  intro q hq
  simp only [simulateSoc] at hq
  exact scanSt_invariant (fun s => 0 ≤ s ∧ s ≤ 1) _
    (fun s x hs => socStep_bounds _ s x hs.1 hs.2) _ _ ⟨h0, h1⟩ q hq

/-- Claim C1 (counterexample): on a run whose first measured soc_pct is 150 %, the
simulated trajectory starts at 1.5, so it is not contained in [0,1]: the initial
element is not clamped. -/
theorem C1_counterexample :
    ¬ ∀ q ∈ simulateSoc c1run 4410, 0 ≤ q ∧ q ≤ 1 := by
  with_unfolding_all decide

/-- Claim C1 witness: on a run with initial soc_pct 50 % the amended bound applies
to the concretely computed trajectory element 2/5. -/
theorem C1_soc_clamped_witness :
    ((2 : ℚ) / 5 ∈ simulateSoc c1okRun (1 / 3600)) ∧
      (0 ≤ (2 : ℚ) / 5 ∧ (2 : ℚ) / 5 ≤ 1) :=
  ⟨by with_unfolding_all decide,
    C1_soc_clamped c1okRun (1 / 3600) (by with_unfolding_all decide)
      (by with_unfolding_all decide) (2 / 5) (by with_unfolding_all decide)⟩

/-- Claim C8 (amended): with a predicted power of 0 for every sample, the simulated
SOC trajectory is constantly equal to the initial SOC — regardless of the voltage
series — provided that initial SOC lies in [0,1] (otherwise the very first clamped
Euler step already moves it). -/
theorem C8_zero_power_constant (run : List Sample) (c : ℚ)
    (hp : ∀ s ∈ run, s.power_pred_mW = some 0)
    (h0 : 0 ≤ socInit (sortByT run)) (h1 : socInit (sortByT run) ≤ 1) :
    ∀ q ∈ simulateSoc run c, q = socInit (sortByT run) := by
  intro q hq
  simp only [simulateSoc] at hq
  refine scanSt_const _ _ _ (fun x hx => ?_) q hq
  have hcol : ∀ o ∈ colNum (fun s => s.power_pred_mW) (sortByT run), o = some 0 := by
    intro o ho
    simp only [colNum, List.mem_map] at ho
    rcases ho with ⟨s, hs, rfl⟩
    exact hp s ((mem_isortBy tLe s run).mp hs)
  have hp0 : x.2.2 = some 0 := by
    have hx2 := zip3_mem_third (List.take_subset _ _ hx)
    rw [fillFB_all_some _ hcol] at hx2
    exact hcol _ hx2
  cases hdt : x.1.usableDt with
  | none => simp only [socStep, hdt]
  | some dti =>
    simp only [socStep, hdt, hp0]
    rw [zero_div, zero_mul, sub_zero, max_eq_right h0, min_eq_right h1]

/-- Claim C8 (counterexample): a run with zero predicted power everywhere but
initial soc_pct 150 % has trajectory [1.5, 1]: the first clamped step changes the
value, so the trajectory is not constant for every input run. -/
theorem C8_counterexample :
    (∀ s ∈ c8run, s.power_pred_mW = some 0) ∧
      ¬ ∀ q ∈ simulateSoc c8run 4410, q = socInit (sortByT c8run) := by
  with_unfolding_all decide

/-- Claim C8 witness: on a well-formed run with zero predicted power, the concrete
trajectory element 1/2 equals the initial SOC. -/
theorem C8_zero_power_constant_witness :
    ((1 : ℚ) / 2 ∈ simulateSoc c8okRun 4410) ∧
      (1 : ℚ) / 2 = socInit (sortByT c8okRun) :=
  ⟨by with_unfolding_all decide,
    C8_zero_power_constant c8okRun 4410 (by with_unfolding_all decide)
      (by with_unfolding_all decide) (by with_unfolding_all decide)
      (1 / 2) (by with_unfolding_all decide)⟩


theorem clampA1_neg (a : ℚ) : clampA1 a < 0 := by
  unfold clampA1
  split
  · norm_num
  · linarith [not_le.mp (by assumption : ¬ -(1 / 1000000) ≤ a)]

theorem clampB_nonneg (b : ℚ) : 0 ≤ clampB b := by
  unfold clampB
  split
  · exact le_refl 0
  · exact le_of_not_lt (by assumption)

theorem clampA2_nonpos (d a : ℚ) (hd : d ≤ 0) : clampA2 d a ≤ 0 := by
  unfold clampA2
  split
  · exact hd
  · exact le_of_not_lt (by assumption)

/-- Claim C4: the clamped thermal fits satisfy the physical sign constraints on
every input run: the 1-state cooling coefficient is (strictly) negative and its
heating coefficient nonnegative; the 2-state fast and slow cooling coefficients are
nonpositive and the heating and inter-node coupling coefficients nonnegative. -/
theorem C4_thermal_sign_constraints (run : List Sample) :
    (fitThermal1State run).a_per_s < 0 ∧ 0 ≤ (fitThermal1State run).b_C_per_J ∧
      (fitThermal2State run).a_cpu_per_s ≤ 0 ∧
      0 ≤ (fitThermal2State run).b_cpu_C_per_J ∧
      (fitThermal2State run).a_batt_per_s ≤ 0 ∧
      0 ≤ (fitThermal2State run).b_couple_per_s := by
  refine ⟨?_, ?_, ?_, ?_, ?_, ?_⟩
  · simp only [fitThermal1State]
    split
    · norm_num
    · split
      · norm_num
      · exact clampA1_neg _
  · simp only [fitThermal1State]
    split
    · norm_num
    · split
      · norm_num
      · exact clampB_nonneg _
  · simp only [fitThermal2State, thermal2Default]
    split
    · norm_num
    · split
      · norm_num
      · exact clampA2_nonpos _ _ (by norm_num)
  · simp only [fitThermal2State, thermal2Default]
    split
    · norm_num
    · split
      · norm_num
      · exact clampB_nonneg _
  · simp only [fitThermal2State, thermal2Default]
    split
    · norm_num
    · split
      · norm_num
      · exact clampA2_nonpos _ _ (by norm_num)
  · simp only [fitThermal2State, thermal2Default]
    split
    · norm_num
    · split
      · norm_num
      · exact clampB_nonneg _

/-- Claim C5: whenever a run yields fewer than 10 usable finite-difference
derivative samples (pairs with finite positive dt_s), each thermal fitter returns
the fixed conservative default coefficients (slow cooling time-constant, zero
heating and coupling response) instead of raising: both fitters are total
functions. -/
theorem C5_thermal_fallback (run : List Sample)
    (h1 : (thermalSamples1 run).length < 10)
    (h2 : (thermalSamples2 run).length < 10) :
    ((fitThermal1State run).a_per_s = -(1 / 2000) ∧
      (fitThermal1State run).b_C_per_J = 0) ∧
      ((fitThermal2State run).a_cpu_per_s = -(1 / 200) ∧
        (fitThermal2State run).b_cpu_C_per_J = 0 ∧
        (fitThermal2State run).a_batt_per_s = -(1 / 2000) ∧
        (fitThermal2State run).b_couple_per_s = 0) := by
  constructor
  · simp only [fitThermal1State]
    split_ifs
    · exact ⟨rfl, rfl⟩
    · exact ⟨rfl, rfl⟩
  · simp only [fitThermal2State, thermal2Default]
    split_ifs
    · exact ⟨rfl, rfl, rfl, rfl⟩
    · exact ⟨rfl, rfl, rfl, rfl⟩

/-- Claim C5 witness: a two-sample run has at most one usable pair, so both
fitters return the defaults. -/
theorem C5_thermal_fallback_witness :
    ((fitThermal1State c5run).a_per_s = -(1 / 2000) ∧
      (fitThermal1State c5run).b_C_per_J = 0) ∧
      ((fitThermal2State c5run).a_cpu_per_s = -(1 / 200) ∧
        (fitThermal2State c5run).b_cpu_C_per_J = 0 ∧
        (fitThermal2State c5run).a_batt_per_s = -(1 / 2000) ∧
        (fitThermal2State c5run).b_couple_per_s = 0) :=
  C5_thermal_fallback c5run (by with_unfolding_all decide)
    (by with_unfolding_all decide)

theorem scanSt_head {σ ι : Type} (f : σ → ι → σ) (init : σ) (steps : List ι) :
    (scanSt f init steps)[0]? = some init := by
  cases steps <;> simp [scanSt]

theorem scanSt_noop {σ ι : Type} (f : σ → ι → σ) :
    ∀ (steps : List ι) (k : Nat) (init : σ) (x : ι),
      steps[k]? = some x → (∀ s, f s x = s) →
      (scanSt f init steps)[k + 1]? = (scanSt f init steps)[k]? := by
  intro steps
  induction steps with
  | nil => intro k init x hx _; simp at hx
  | cons y ys ih =>
    intro k init x hx hfix
    cases k with
    | zero =>
      simp only [List.getElem?_cons_zero, Option.some.injEq] at hx
      subst hx
      simp only [scanSt, List.getElem?_cons_succ, List.getElem?_cons_zero]
      rw [scanSt_head, hfix init]
    | succ k =>
      simp only [List.getElem?_cons_succ] at hx
      simp only [scanSt, List.getElem?_cons_succ]
      exact ih k (f init y) x hx hfix

theorem zip_getElem? {α β : Type} :
    ∀ (a : List α) (b : List β) (k : Nat) (x : α) (y : β),
      a[k]? = some x → b[k]? = some y → (a.zip b)[k]? = some (x, y) := by
  intro a
  induction a with
  | nil => intro b k x y hx _; simp at hx
  | cons a0 as ih =>
    intro b k x y hx hy
    cases b with
    | nil => simp at hy
    | cons b0 bs =>
      cases k with
      | zero =>
        simp only [List.getElem?_cons_zero, Option.some.injEq] at hx hy
        simp [List.zip_cons_cons, hx, hy]
      | succ k =>
        simp only [List.getElem?_cons_succ] at hx hy
        simpa [List.zip_cons_cons] using ih bs k x y hx hy

theorem zip3_getElem? {α β γ : Type} :
    ∀ (a : List α) (b : List β) (d : List γ) (k : Nat) (x : α) (y : β) (z : γ),
      a[k]? = some x → b[k]? = some y → d[k]? = some z →
      (zip3 a b d)[k]? = some (x, y, z) := by
  intro a
  induction a with
  | nil => intro b d k x y z hx _ _; simp at hx
  | cons a0 as ih =>
    intro b d k x y z hx hy hz
    cases b with
    | nil => simp at hy
    | cons b0 bs =>
      cases d with
      | nil => simp at hz
      | cons c0 cs =>
        cases k with
        | zero =>
          simp only [List.getElem?_cons_zero, Option.some.injEq] at hx hy hz
          simp [zip3, hx, hy, hz]
        | succ k =>
          simp only [List.getElem?_cons_succ] at hx hy hz
          simpa [zip3] using ih bs cs k x y z hx hy hz

theorem length_ffillGo : ∀ (l : List (Option ℚ)) (cur : Option ℚ),
    (ffillGo cur l).length = l.length := by
  intro l
  induction l with
  | nil => intro cur; rfl
  | cons o os ih =>
    intro cur
    cases o <;> simp [ffillGo, ih]

theorem length_fillFB (l : List (Option ℚ)) : (fillFB l).length = l.length := by
  unfold fillFB bfill ffill
  simp [length_ffillGo]

theorem length_vSeries (df : List Sample) : (vSeries df).length = df.length := by
  simp only [vSeries, colNum]
  split
  · simp
  · simp [length_fillFB]

/-- Claim C9: for every step whose dt_s is non-finite (NaN or an infinity) or
non-positive, the 1-state and 2-state temperature simulators (all three of the
2-state outputs) and the SOC simulator repeat the previous state unchanged for that
step; being total functions, they never raise. -/
theorem C9_bad_dt_noop (run : List Sample) (th : ThermalParams)
    (th2 : ThermalParams2) (mix c : ℚ) (k : Nat) (smp : Sample)
    (hk : k + 1 < run.length)
    (hsmp : (sortByT run)[k]? = some smp)
    (hbad : smp.dt_s = FV.nan ∨ smp.dt_s = FV.pinf ∨ smp.dt_s = FV.ninf ∨
      ∃ q, smp.dt_s = FV.num q ∧ q ≤ 0) :
    (simulateTemperature1State run th)[k + 1]?
        = (simulateTemperature1State run th)[k]?
      ∧ (simulateTemperature2State run th2 mix).1[k + 1]?
        = (simulateTemperature2State run th2 mix).1[k]?
      ∧ (simulateTemperature2State run th2 mix).2.1[k + 1]?
        = (simulateTemperature2State run th2 mix).2.1[k]?
      ∧ (simulateTemperature2State run th2 mix).2.2[k + 1]?
        = (simulateTemperature2State run th2 mix).2.2[k]?
      ∧ (simulateSoc run c)[k + 1]? = (simulateSoc run c)[k]? := by
  have hlen : (sortByT run).length = run.length := length_isortBy tLe run
  have husable : (smp.dt_s.fillna 0).usableDt = none := by
    rcases hbad with h | h | h | ⟨q, hq, hq0⟩
    · simp [h, FV.fillna, FV.usableDt]
    · simp [h, FV.fillna, FV.usableDt]
    · simp [h, FV.fillna, FV.usableDt]
    · simp [hq, FV.fillna, FV.usableDt, not_lt.mpr hq0]
  have hdtf : (dtFilled (sortByT run))[k]? = some (smp.dt_s.fillna 0) := by
    unfold dtFilled
    rw [List.getElem?_map, hsmp]
    rfl
  have hph : (pHeat (sortByT run))[k]?
      = some (max 0 (smp.power_cpu_mW.getD 0) / 1000) := by
    unfold pHeat
    rw [List.getElem?_map, hsmp]
    rfl
  have hk' : k < (sortByT run).length - 1 := by rw [hlen]; omega
  refine ⟨?_, ?_, ?_, ?_, ?_⟩
  · simp only [simulateTemperature1State]
    apply scanSt_noop
    · rw [List.getElem?_take_of_lt hk']
      exact zip_getElem? _ _ k _ _ hdtf hph
    · intro s
      simp [temp1Step, husable]
  · simp only [simulateTemperature2State]
    rw [List.getElem?_map, List.getElem?_map]
    refine congrArg _ ?_
    apply scanSt_noop
    · rw [List.getElem?_take_of_lt hk']
      exact zip_getElem? _ _ k _ _ hdtf hph
    · intro s
      simp [temp2Step, husable]
  · simp only [simulateTemperature2State]
    rw [List.getElem?_map, List.getElem?_map]
    refine congrArg _ ?_
    apply scanSt_noop
    · rw [List.getElem?_take_of_lt hk']
      exact zip_getElem? _ _ k _ _ hdtf hph
    · intro s
      simp [temp2Step, husable]
  · simp only [simulateTemperature2State]
    rw [List.getElem?_map, List.getElem?_map]
    refine congrArg _ ?_
    apply scanSt_noop
    · rw [List.getElem?_take_of_lt hk']
      exact zip_getElem? _ _ k _ _ hdtf hph
    · intro s
      simp [temp2Step, husable]
  · simp only [simulateSoc]
    apply scanSt_noop
    · rw [List.getElem?_take_of_lt hk']
      refine zip3_getElem? _ _ _ k _ _ _ hdtf (List.getElem?_eq_getElem ?_)
        (List.getElem?_eq_getElem ?_)
      · rw [length_vSeries, hlen]; omega
      · rw [length_fillFB]; simp only [colNum, List.length_map]; rw [hlen]; omega
    · intro s
      simp [socStep, husable]

/-- Claim C9 witness: on the concrete run whose first dt_s is NaN, all three
simulators repeat the initial state at step 0. -/
theorem C9_bad_dt_noop_witness :
    (simulateTemperature1State c9run ⟨-(1 / 2000), 0, 40⟩)[1]?
        = (simulateTemperature1State c9run ⟨-(1 / 2000), 0, 40⟩)[0]?
      ∧ (simulateTemperature2State c9run ⟨-(1 / 200), 0, -(1 / 2000), 0, 40⟩ (7 / 10)).1[1]?
        = (simulateTemperature2State c9run ⟨-(1 / 200), 0, -(1 / 2000), 0, 40⟩ (7 / 10)).1[0]?
      ∧ (simulateTemperature2State c9run ⟨-(1 / 200), 0, -(1 / 2000), 0, 40⟩ (7 / 10)).2.1[1]?
        = (simulateTemperature2State c9run ⟨-(1 / 200), 0, -(1 / 2000), 0, 40⟩ (7 / 10)).2.1[0]?
      ∧ (simulateTemperature2State c9run ⟨-(1 / 200), 0, -(1 / 2000), 0, 40⟩ (7 / 10)).2.2[1]?
        = (simulateTemperature2State c9run ⟨-(1 / 200), 0, -(1 / 2000), 0, 40⟩ (7 / 10)).2.2[0]?
      ∧ (simulateSoc c9run 4410)[1]? = (simulateSoc c9run 4410)[0]? :=
  C9_bad_dt_noop c9run ⟨-(1 / 2000), 0, 40⟩ ⟨-(1 / 200), 0, -(1 / 2000), 0, 40⟩
    (7 / 10) 4410 0 c9sA (by norm_num [c9run])
    (by
      have hs : sortByT c9run = c9run := by
        norm_num [sortByT, isortBy, insertLe, tLe, c9run, c9sA, baseSample]
      rw [hs]
      rfl)
    (Or.inl rfl)

theorem pmPrep_run_mem (tbl : List Sample) (s : Sample) (hs : s ∈ pmPrep tbl) :
    ∃ s0 ∈ tbl, s.run_name = s0.run_name := by
  unfold pmPrep at hs
  simp only [List.mem_filter, List.mem_map] at hs
  obtain ⟨⟨⟨s0, hs0, rfl⟩, _⟩, _⟩ := hs
  exact ⟨s0, hs0, rfl⟩

theorem pmDf2_run_mem (thermal2 : Bool) (mix : ℚ) (tbl : List Sample) (r : Row2)
    (hr : r ∈ pmDf2 thermal2 mix tbl) :
    ∃ s0 ∈ tbl, r.s.run_name = s0.run_name := by
  unfold pmDf2 at hr
  simp only [List.mem_flatMap, List.mem_map] at hr
  obtain ⟨rn, hrn, ⟨smp, tl⟩, hp, rfl⟩ := hr
  have h1 : smp ∈ sortByT ((pmPrep tbl).filter fun s => s.run_name = rn) :=
    (List.of_mem_zip hp).1
  unfold sortByT at h1
  rw [mem_isortBy] at h1
  exact pmPrep_run_mem tbl smp (List.mem_filter.mp h1).1

theorem pmRunMeanResid_absent (E : ℚ → ℚ) (tbl : List Sample) (alpha gamma : ℚ)
    (thermal2 : Bool) (mix : ℚ) (nm : String)
    (habs : ∀ s ∈ tbl, s.run_name ≠ nm) :
    pmRunMeanResid E tbl alpha gamma thermal2 mix nm = none := by
  unfold pmRunMeanResid
  have hnil : ((pmDf2 thermal2 mix tbl).filter fun r => r.s.run_name = nm) = [] := by
    rw [List.filter_eq_nil_iff]
    intro r hr
    obtain ⟨s0, hs0, he⟩ := pmDf2_run_mem thermal2 mix tbl r hr
    simp only [decide_eq_true_eq]
    rw [he]
    exact habs s0 hs0
  rw [hnil]
  rfl

theorem pmKGpsOff_nonpos (E : ℚ → ℚ) (tbl : List Sample) (alpha gamma : ℚ)
    (thermal2 : Bool) (mix : ℚ) :
    pmKGpsOff E tbl alpha gamma thermal2 mix ≤ 0 := by
  unfold pmKGpsOff
  rcases pmRunMeanResid E tbl alpha gamma thermal2 mix "20260201_213514_S4" with _ | r4 <;>
    rcases pmRunMeanResid E tbl alpha gamma thermal2 mix "20260201_215338_S4-1" with _ | r41 <;>
    simp [min_le_left]

theorem pmKCellOff_nonpos (E : ℚ → ℚ) (tbl : List Sample) (alpha gamma : ℚ)
    (thermal2 : Bool) (mix : ℚ) :
    pmKCellOff E tbl alpha gamma thermal2 mix ≤ 0 := by
  unfold pmKCellOff
  rcases pmRunMeanResid E tbl alpha gamma thermal2 mix "20260131_230812_S1-HS-1" with _ | rOn <;>
    rcases pmRunMeanResid E tbl alpha gamma thermal2 mix "20260201_174510_S1-HS-2" with _ | rOff <;>
    simp [min_le_left]

/-- Claim C3: the GPS-OFF and cellular-OFF offsets of fit_power_model_v2 are not
regressed: whenever both runs of the designated pair are present, the offset equals
the mean base-model residual of the OFF run minus that of its paired ON run clamped
to ≤ 0; when either run of a pair is absent from the input table the offset
defaults to exactly 0 (no correction, no error — the fitter is total); and both
offsets are ≤ 0 for every input. -/
theorem C3_offsets (E : ℚ → ℚ) (tbl : List Sample) (alpha gamma : ℚ)
    (thermal2 : Bool) (mix : ℚ) :
    (fitPowerModelV2 E tbl alpha gamma thermal2 mix).k_gps_off_mW ≤ 0
    ∧ (fitPowerModelV2 E tbl alpha gamma thermal2 mix).k_cellular_off_mW ≤ 0
    ∧ (∀ r4 r41,
        pmRunMeanResid E tbl alpha gamma thermal2 mix "20260201_213514_S4" = some r4 →
        pmRunMeanResid E tbl alpha gamma thermal2 mix "20260201_215338_S4-1" = some r41 →
        (fitPowerModelV2 E tbl alpha gamma thermal2 mix).k_gps_off_mW = min 0 (r4 - r41))
    ∧ (∀ rOn rOff,
        pmRunMeanResid E tbl alpha gamma thermal2 mix "20260131_230812_S1-HS-1" = some rOn →
        pmRunMeanResid E tbl alpha gamma thermal2 mix "20260201_174510_S1-HS-2" = some rOff →
        (fitPowerModelV2 E tbl alpha gamma thermal2 mix).k_cellular_off_mW = min 0 (rOff - rOn))
    ∧ ((∀ s ∈ tbl, s.run_name ≠ "20260201_213514_S4") →
        (fitPowerModelV2 E tbl alpha gamma thermal2 mix).k_gps_off_mW = 0)
    ∧ ((∀ s ∈ tbl, s.run_name ≠ "20260201_215338_S4-1") →
        (fitPowerModelV2 E tbl alpha gamma thermal2 mix).k_gps_off_mW = 0)
    ∧ ((∀ s ∈ tbl, s.run_name ≠ "20260131_230812_S1-HS-1") →
        (fitPowerModelV2 E tbl alpha gamma thermal2 mix).k_cellular_off_mW = 0)
    ∧ ((∀ s ∈ tbl, s.run_name ≠ "20260201_174510_S1-HS-2") →
        (fitPowerModelV2 E tbl alpha gamma thermal2 mix).k_cellular_off_mW = 0) := by
  have hgps : (fitPowerModelV2 E tbl alpha gamma thermal2 mix).k_gps_off_mW
      = pmKGpsOff E tbl alpha gamma thermal2 mix := rfl
  have hcell : (fitPowerModelV2 E tbl alpha gamma thermal2 mix).k_cellular_off_mW
      = pmKCellOff E tbl alpha gamma thermal2 mix := rfl
  refine ⟨hgps ▸ pmKGpsOff_nonpos E tbl alpha gamma thermal2 mix,
    hcell ▸ pmKCellOff_nonpos E tbl alpha gamma thermal2 mix,
    ?_, ?_, ?_, ?_, ?_, ?_⟩
  · intro r4 r41 h4 h41
    rw [hgps]
    unfold pmKGpsOff
    rw [h4, h41]
  · intro rOn rOff hOn hOff
    rw [hcell]
    unfold pmKCellOff
    rw [hOn, hOff]
  · intro habs
    rw [hgps]
    unfold pmKGpsOff
    rw [pmRunMeanResid_absent E tbl alpha gamma thermal2 mix _ habs]
  · intro habs
    rw [hgps]
    unfold pmKGpsOff
    rw [pmRunMeanResid_absent E tbl alpha gamma thermal2 mix _ habs]
    rcases pmRunMeanResid E tbl alpha gamma thermal2 mix "20260201_213514_S4" with _ | x <;> rfl
  · intro habs
    rw [hcell]
    unfold pmKCellOff
    rw [pmRunMeanResid_absent E tbl alpha gamma thermal2 mix _ habs]
  · intro habs
    rw [hcell]
    unfold pmKCellOff
    rw [pmRunMeanResid_absent E tbl alpha gamma thermal2 mix _ habs]
    rcases pmRunMeanResid E tbl alpha gamma thermal2 mix "20260131_230812_S1-HS-1" with _ | x <;> rfl

/-- Claim C3 witness: on a table containing neither calibration run, both offsets
are ≤ 0 and the GPS offset defaults to exactly 0. -/
theorem C3_offsets_witness :
    (fitPowerModelV2 (fun _ => 1) c3tbl 2000 0 false (7 / 10)).k_gps_off_mW ≤ 0
      ∧ (fitPowerModelV2 (fun _ => 1) c3tbl 2000 0 false (7 / 10)).k_gps_off_mW = 0
      ∧ (fitPowerModelV2 (fun _ => 1) c3tbl 2000 0 false (7 / 10)).k_cellular_off_mW = 0 :=
  ⟨(C3_offsets (fun _ => 1) c3tbl 2000 0 false (7 / 10)).1,
   (C3_offsets (fun _ => 1) c3tbl 2000 0 false (7 / 10)).2.2.2.2.1 (by decide),
   (C3_offsets (fun _ => 1) c3tbl 2000 0 false (7 / 10)).2.2.2.2.2.2.1 (by decide)⟩

/-- Claim C10: fit_power_model_v2 computes its GPS-OFF offset only from the two
runs hard-coded by name — "20260201_213514_S4" (OFF) and "20260201_215338_S4-1"
(ON) — and its cellular-OFF offset only from "20260131_230812_S1-HS-1" (ON) and
"20260201_174510_S1-HS-2" (OFF); on any input table containing none of these exact
run names both offsets are exactly 0. -/
theorem C10_hardcoded_runs (E : ℚ → ℚ) (tbl : List Sample) (alpha gamma : ℚ)
    (thermal2 : Bool) (mix : ℚ) :
    ((fitPowerModelV2 E tbl alpha gamma thermal2 mix).k_gps_off_mW
        = match pmRunMeanResid E tbl alpha gamma thermal2 mix "20260201_213514_S4",
            pmRunMeanResid E tbl alpha gamma thermal2 mix "20260201_215338_S4-1" with
          | some r4, some r41 => min 0 (r4 - r41)
          | _, _ => 0)
    ∧ ((fitPowerModelV2 E tbl alpha gamma thermal2 mix).k_cellular_off_mW
        = match pmRunMeanResid E tbl alpha gamma thermal2 mix "20260131_230812_S1-HS-1",
            pmRunMeanResid E tbl alpha gamma thermal2 mix "20260201_174510_S1-HS-2" with
          | some rOn, some rOff => min 0 (rOff - rOn)
          | _, _ => 0)
    ∧ ((∀ s ∈ tbl, s.run_name ≠ "20260201_213514_S4"
          ∧ s.run_name ≠ "20260201_215338_S4-1"
          ∧ s.run_name ≠ "20260131_230812_S1-HS-1"
          ∧ s.run_name ≠ "20260201_174510_S1-HS-2") →
        (fitPowerModelV2 E tbl alpha gamma thermal2 mix).k_gps_off_mW = 0
          ∧ (fitPowerModelV2 E tbl alpha gamma thermal2 mix).k_cellular_off_mW = 0) := by
  refine ⟨rfl, rfl, fun habs => ⟨?_, ?_⟩⟩
  · show pmKGpsOff E tbl alpha gamma thermal2 mix = 0
    unfold pmKGpsOff
    rw [pmRunMeanResid_absent E tbl alpha gamma thermal2 mix _
      fun s hs => (habs s hs).1]
  · show pmKCellOff E tbl alpha gamma thermal2 mix = 0
    unfold pmKCellOff
    rw [pmRunMeanResid_absent E tbl alpha gamma thermal2 mix _
      fun s hs => (habs s hs).2.2.1]

/-- Claim C10 witness: a table whose only run is named "z9" has both offsets
exactly 0. -/
theorem C10_hardcoded_runs_witness :
    (fitPowerModelV2 (fun _ => 1) c10tbl 2000 0 false (7 / 10)).k_gps_off_mW = 0
      ∧ (fitPowerModelV2 (fun _ => 1) c10tbl 2000 0 false (7 / 10)).k_cellular_off_mW = 0 :=
  (C10_hardcoded_runs (fun _ => 1) c10tbl 2000 0 false (7 / 10)).2.2 (by decide)

theorem mem_zipWith_ex {α β γ : Type} (f : α → β → γ) :
    ∀ {a : List α} {b : List β} {x : γ}, x ∈ List.zipWith f a b →
      ∃ p q, p ∈ a ∧ q ∈ b ∧ x = f p q := by
  intro a
  induction a with
  | nil => intro b x hx; simp at hx
  | cons a0 as ih =>
    intro b x hx
    cases b with
    | nil => simp at hx
    | cons b0 bs =>
      simp only [List.zipWith_cons_cons, List.mem_cons] at hx
      rcases hx with rfl | hx
      · exact ⟨a0, b0, by simp, by simp, rfl⟩
      · obtain ⟨p, q, hp, hq, rfl⟩ := ih hx
        exact ⟨p, q, by simp [hp], by simp [hq], rfl⟩

theorem oadd_ss (a b : ℚ) : oadd (some a) (some b) = some (a + b) := rfl

theorem oadd_nl (b : Option ℚ) : oadd none b = none := rfl

theorem oadd_nr (a : Option ℚ) : oadd a none = none := by cases a <;> rfl

theorem osub_ss (a b : ℚ) : osub (some a) (some b) = some (a - b) := rfl

theorem osub_nl (b : Option ℚ) : osub none b = none := rfl

theorem osub_nr (a : Option ℚ) : osub a none = none := by cases a <;> rfl

theorem omul_ss (a b : ℚ) : omul (some a) (some b) = some (a * b) := rfl

theorem omul_nl (b : Option ℚ) : omul none b = none := rfl

theorem omul_nr (a : Option ℚ) : omul a none = none := by cases a <;> rfl

theorem odiv_ss (a b : ℚ) :
    odiv (some a) (some b) = if b = 0 then none else some (a / b) := rfl

theorem odiv_nl (b : Option ℚ) : odiv none b = none := rfl

theorem odiv_nr (a : Option ℚ) : odiv a none = none := by cases a <;> rfl

theorem omax_ss (a b : ℚ) : omax (some a) (some b) = some (max a b) := rfl

theorem omax_nl (b : Option ℚ) : omax none b = none := rfl

theorem omax_nr (a : Option ℚ) : omax a none = none := by cases a <;> rfl

theorem none_eq_someQ (a : ℚ) : ((none : Option ℚ) = some a) = False := by
  simp

theorem some_eq_noneQ (a : ℚ) : ((some a : Option ℚ) = none) = False := by
  simp

theorem foldl_oadd_isSome (l : List (Option ℚ)) (hl : ∀ x ∈ l, x.isSome) :
    ∀ a : ℚ, (l.foldl oadd (some a)).isSome := by
  induction l with
  | nil => intro a; rfl
  | cons x xs ih =>
    intro a
    obtain ⟨q, rfl⟩ := Option.isSome_iff_exists.mp (hl x (by simp))
    simp only [List.foldl_cons]
    exact ih (fun y hy => hl y (by simp [hy])) (a + q)

theorem dotLO_isSome (a b : List (Option ℚ)) (ha : ∀ x ∈ a, x.isSome)
    (hb : ∀ x ∈ b, x.isSome) : (dotLO a b).isSome := by
  unfold dotLO
  apply foldl_oadd_isSome
  intro x hx
  obtain ⟨p, q, hp, hq, rfl⟩ := mem_zipWith_ex omul hx
  obtain ⟨p2, rfl⟩ := Option.isSome_iff_exists.mp (ha p hp)
  obtain ⟨q2, rfl⟩ := Option.isSome_iff_exists.mp (hb q hq)
  rfl

theorem headD_isSome (l : List (Option ℚ)) (hl : ∀ x ∈ l, x.isSome) :
    (l.headD (some 0)).isSome := by
  cases l with
  | nil => rfl
  | cons x xs => exact hl x (by simp)

theorem getD_isSome (l : List (Option ℚ)) (hl : ∀ x ∈ l, x.isSome) :
    ∀ i : Nat, (l.getD i (some 0)).isSome := by
  induction l with
  | nil => intro i; rfl
  | cons x xs ih =>
    intro i
    cases i with
    | zero => simpa [List.getD_cons_zero] using hl x (by simp)
    | succ j =>
      simpa [List.getD_cons_succ] using ih (fun y hy => hl y (by simp [hy])) j

theorem findPivotO_spec :
    ∀ (rows : List (List (Option ℚ) × Option ℚ)) (p : List (Option ℚ) × Option ℚ)
      (rest : List (List (Option ℚ) × Option ℚ)),
      findPivotO rows = some (p, rest) →
      p ∈ rows ∧ (∀ r ∈ rest, r ∈ rows) ∧ p.1.headD (some 0) ≠ some 0 := by
  intro rows
  induction rows with
  | nil => intro p rest h; exact absurd h (by simp [findPivotO])
  | cons r rs ih =>
    intro p rest h
    unfold findPivotO at h
    by_cases hc : r.1.headD (some 0) ≠ some 0
    · rw [if_pos hc] at h
      have h2 := Option.some.inj h
      obtain ⟨rfl, rfl⟩ : r = p ∧ rs = rest :=
        ⟨congrArg Prod.fst h2, congrArg Prod.snd h2⟩
      exact ⟨by simp, fun x hx => by simp [hx], hc⟩
    · rw [if_neg hc] at h
      rcases hfp : findPivotO rs with _ | pr
      · rw [hfp] at h
        exact absurd h (by simp)
      · obtain ⟨p2, rest2⟩ := pr
        rw [hfp] at h
        obtain ⟨hm, hsub, hh⟩ := ih p2 rest2 hfp
        have h2 := Option.some.inj h
        obtain ⟨rfl, rfl⟩ : p2 = p ∧ r :: rest2 = rest :=
          ⟨congrArg Prod.fst h2, congrArg Prod.snd h2⟩
        refine ⟨by simp [hm], ?_, hh⟩
        intro x hx
        rcases List.mem_cons.mp hx with rfl | hx2
        · simp
        · simp [hsub x hx2]

theorem rowElimO_some (p r : List (Option ℚ) × Option ℚ)
    (hp : (∀ x ∈ p.1, x.isSome) ∧ p.2.isSome)
    (hph : p.1.headD (some 0) ≠ some 0)
    (hr : (∀ x ∈ r.1, x.isSome) ∧ r.2.isSome) :
    (∀ x ∈ (rowElimO p r).1, x.isSome) ∧ (rowElimO p r).2.isSome := by
  obtain ⟨c, hc⟩ := Option.isSome_iff_exists.mp (headD_isSome p.1 hp.1)
  have hc0 : c ≠ 0 := fun h0 => hph (by rw [hc, h0])
  obtain ⟨a, ha⟩ := Option.isSome_iff_exists.mp (headD_isSome r.1 hr.1)
  have hcoef : odiv (r.1.headD (some 0)) (p.1.headD (some 0)) = some (a / c) := by
    rw [ha, hc]
    simp [odiv, hc0]
  constructor
  · intro x hx
    simp only [rowElimO] at hx
    obtain ⟨u, v, hu, hv, rfl⟩ := mem_zipWith_ex _ hx
    obtain ⟨u2, rfl⟩ := Option.isSome_iff_exists.mp (hr.1 u (List.mem_of_mem_tail hu))
    obtain ⟨v2, rfl⟩ := Option.isSome_iff_exists.mp (hp.1 v (List.mem_of_mem_tail hv))
    rw [hcoef]
    rfl
  · obtain ⟨u2, hu⟩ := Option.isSome_iff_exists.mp hr.2
    obtain ⟨v2, hv⟩ := Option.isSome_iff_exists.mp hp.2
    simp only [rowElimO]
    rw [hcoef, hu, hv]
    rfl

theorem gaussElimO_some :
    ∀ (n : Nat) (rows : List (List (Option ℚ) × Option ℚ)),
      (∀ r ∈ rows, (∀ x ∈ r.1, x.isSome) ∧ r.2.isSome) →
      ∀ x ∈ gaussElimO n rows, x.isSome := by
  intro n
  induction n with
  | zero => intro rows _ x hx; simp [gaussElimO] at hx
  | succ n ih =>
    intro rows hrows x hx
    unfold gaussElimO at hx
    rcases hfp : findPivotO rows with _ | pr
    · rw [hfp] at hx
      rcases List.mem_cons.mp hx with rfl | hx2
      · rfl
      · refine ih _ ?_ x hx2
        intro r hr
        obtain ⟨r0, hr0, rfl⟩ := List.mem_map.mp hr
        obtain ⟨h1, h2⟩ := hrows r0 hr0
        exact ⟨fun y hy => h1 y (List.mem_of_mem_tail hy), h2⟩
    · obtain ⟨p, rest⟩ := pr
      rw [hfp] at hx
      obtain ⟨hpmem, hsub, hph⟩ := findPivotO_spec rows p rest hfp
      have hp := hrows p hpmem
      have hxs : ∀ y ∈ gaussElimO n (rest.map (rowElimO p)), y.isSome := by
        refine ih _ ?_
        intro r hr
        obtain ⟨r0, hr0, rfl⟩ := List.mem_map.mp hr
        exact rowElimO_some p r0 hp hph (hrows r0 (hsub r0 hr0))
      rcases List.mem_cons.mp hx with rfl | hx2
      · obtain ⟨c, hc⟩ := Option.isSome_iff_exists.mp (headD_isSome p.1 hp.1)
        have hc0 : c ≠ 0 := fun h0 => hph (by rw [hc, h0])
        have hd : (dotLO p.1.tail (gaussElimO n (rest.map (rowElimO p)))).isSome :=
          dotLO_isSome _ _ (fun y hy => hp.1 y (List.mem_of_mem_tail hy)) hxs
        obtain ⟨d, hdd⟩ := Option.isSome_iff_exists.mp hd
        obtain ⟨b2, hb⟩ := Option.isSome_iff_exists.mp hp.2
        rw [hdd, hb, hc]
        simp [odiv, osub, hc0]
      · exact hxs x hx2

theorem gramEntryO_isSome (X : List (List (Option ℚ)))
    (hX : ∀ row ∈ X, ∀ x ∈ row, x.isSome) (i j : Nat) :
    (gramEntryO X i j).isSome := by
  unfold gramEntryO
  apply foldl_oadd_isSome
  intro x hx
  obtain ⟨row, hrow, rfl⟩ := List.mem_map.mp hx
  obtain ⟨a, ha⟩ := Option.isSome_iff_exists.mp (getD_isSome row (hX row hrow) i)
  obtain ⟨b, hb⟩ := Option.isSome_iff_exists.mp (getD_isSome row (hX row hrow) j)
  rw [ha, hb]
  rfl

theorem gramRidgeO_some (p : Nat) (X : List (List (Option ℚ))) (ridge : ℚ)
    (hX : ∀ row ∈ X, ∀ x ∈ row, x.isSome) :
    ∀ row ∈ gramRidgeO p X ridge, ∀ x ∈ row, x.isSome := by
  intro row hrow x hx
  unfold gramRidgeO at hrow
  obtain ⟨i, _, rfl⟩ := List.mem_map.mp hrow
  obtain ⟨j, _, rfl⟩ := List.mem_map.mp hx
  obtain ⟨g, hg⟩ := Option.isSome_iff_exists.mp (gramEntryO_isSome X hX i j)
  rw [hg]
  rfl

theorem xtyO_isSome (p : Nat) (X : List (List (Option ℚ))) (y : List (Option ℚ))
    (hX : ∀ row ∈ X, ∀ x ∈ row, x.isSome) (hy : ∀ x ∈ y, x.isSome) :
    ∀ x ∈ xtyO p X y, x.isSome := by
  intro x hx
  unfold xtyO at hx
  obtain ⟨i, _, rfl⟩ := List.mem_map.mp hx
  apply foldl_oadd_isSome
  intro z hz
  obtain ⟨row, yv, hrow, hyv, rfl⟩ := mem_zipWith_ex _ hz
  obtain ⟨a, ha⟩ := Option.isSome_iff_exists.mp (getD_isSome row (hX row hrow) i)
  obtain ⟨b, hb⟩ := Option.isSome_iff_exists.mp (hy yv hyv)
  rw [ha, hb]
  rfl

theorem ridgeFitLO_some (p : Nat) (X : List (List (Option ℚ))) (y : List (Option ℚ))
    (alpha : ℚ) (hX : ∀ row ∈ X, ∀ x ∈ row, x.isSome) (hy : ∀ x ∈ y, x.isSome) :
    ∀ x ∈ ridgeFitLO p X y alpha, x.isSome := by
  intro x hx
  unfold ridgeFitLO gaussSolveO at hx
  refine gaussElimO_some p _ ?_ x hx
  intro r hr
  obtain ⟨r1, r2⟩ := r
  obtain ⟨h1, h2⟩ := List.of_mem_zip hr
  exact ⟨gramRidgeO_some p X alpha hX r1 h1, xtyO_isSome p X y hX hy r2 h2⟩

theorem i2rScale_isSome (f : Bool) (yh rw2 : List (Option ℚ)) :
    (i2rScale f yh rw2).isSome := by
  unfold i2rScale
  cases f with
  | false => rfl
  | true =>
    rcases hdl : dotLO yh yh with _ | d
    · rfl
    · split <;> try rfl
      split
      · split <;> rfl
      · rfl

theorem i2rDesignRow_some (model : I2rModel) (tref : ℚ) (r : CovRow)
    (hs : r.soc.isSome) (ht : r.t_cpu.isSome) :
    ∀ x ∈ i2rDesignRow model tref r, x.isSome := by
  obtain ⟨s, hs2⟩ := Option.isSome_iff_exists.mp hs
  obtain ⟨t, ht2⟩ := Option.isSome_iff_exists.mp ht
  intro x hx
  cases model with
  | r0 =>
    have e : i2rDesignRow I2rModel.r0 tref r = [some r.i2] := rfl
    rw [e] at hx
    obtain rfl := List.mem_singleton.mp hx
    rfl
  | r0Rsoc =>
    have e : i2rDesignRow I2rModel.r0Rsoc tref r
        = [some r.i2, omul (some r.i2) (osub (some 1) r.soc)] := rfl
    rw [e, hs2] at hx
    rcases List.mem_cons.mp hx with rfl | hx2
    · rfl
    · obtain rfl := List.mem_singleton.mp hx2
      rfl
  | r0RsocRtpos =>
    have e : i2rDesignRow I2rModel.r0RsocRtpos tref r
        = [some r.i2, omul (some r.i2) (osub (some 1) r.soc),
           omul (some r.i2) (omax (some 0) (osub r.t_cpu (some tref)))] := rfl
    rw [e, hs2, ht2] at hx
    rcases List.mem_cons.mp hx with rfl | hx2
    · rfl
    · rcases List.mem_cons.mp hx2 with rfl | hx3
      · rfl
      · obtain rfl := List.mem_singleton.mp hx3
        rfl

theorem i2rFold_nonneg (tbl : List CovRow) (model : I2rModel) (tref ridge : ℚ)
    (fitScale : Bool) (scen : String)
    (hfin : ∀ r ∈ tbl, i2rMask r = true → r.soc.isSome ∧ r.t_cpu.isSome) :
    (∀ b ∈ (i2rFold tbl model tref ridge fitScale scen).1, ∃ q, b = some q ∧ 0 ≤ q)
    ∧ (∀ p ∈ (i2rFold tbl model tref ridge fitScale scen).2.2,
        ∃ q, p = some q ∧ 0 ≤ q) := by
  have hmask : ∀ (c : String → Prop) [DecidablePred c],
      ∀ r ∈ tbl.filter fun r => i2rMask r && c r.scenario,
        r.soc.isSome ∧ r.t_cpu.isSome := by
    intro c _ r hr
    have h2 := List.mem_filter.mp hr
    have h3 := (Bool.and_eq_true _ _).mp h2.2
    exact hfin r h2.1 h3.1
  have hXtr : ∀ row ∈ (tbl.filter fun r => i2rMask r && r.scenario ≠ scen).map
      (i2rDesignRow model tref), ∀ x ∈ row, x.isSome := by
    intro row hrow
    obtain ⟨r, hr, rfl⟩ := List.mem_map.mp hrow
    obtain ⟨h1, h2⟩ := hmask (fun sc => sc ≠ scen) r hr
    exact i2rDesignRow_some model tref r h1 h2
  have hytr : ∀ x ∈ (tbl.filter fun r => i2rMask r && r.scenario ≠ scen).map
      (fun r => some (posResidW r)), x.isSome := by
    intro x hx
    obtain ⟨r, _, rfl⟩ := List.mem_map.mp hx
    rfl
  have hraw := ridgeFitLO_some (i2rCols model)
    ((tbl.filter fun r => i2rMask r && r.scenario ≠ scen).map (i2rDesignRow model tref))
    ((tbl.filter fun r => i2rMask r && r.scenario ≠ scen).map fun r => some (posResidW r))
    ridge hXtr hytr
  constructor
  · intro b hb
    simp only [i2rFold] at hb
    split_ifs at hb
    · simp at hb
    · obtain ⟨x, hx, rfl⟩ := List.mem_map.mp hb
      obtain ⟨q, hq⟩ := Option.isSome_iff_exists.mp (hraw x hx)
      subst hq
      exact ⟨max 0 q, rfl, le_max_left 0 q⟩
  · intro p hp
    simp only [i2rFold] at hp
    split_ifs at hp
    · obtain ⟨x, _, rfl⟩ := List.mem_map.mp hp
      exact ⟨0, rfl, le_refl 0⟩
    · obtain ⟨r, hr, rfl⟩ := List.mem_map.mp hp
      obtain ⟨h1, h2⟩ := hmask (fun sc => sc = scen) r hr
      have hdrow := i2rDesignRow_some model tref r h1 h2
      have hbeta : ∀ x ∈ (ridgeFitLO (i2rCols model)
          ((tbl.filter fun r => i2rMask r && r.scenario ≠ scen).map
            (i2rDesignRow model tref))
          ((tbl.filter fun r => i2rMask r && r.scenario ≠ scen).map
            fun r => some (posResidW r)) ridge).map (omax (some 0)), x.isSome := by
        intro x hx
        obtain ⟨z, hz, rfl⟩ := List.mem_map.mp hx
        obtain ⟨q, hq⟩ := Option.isSome_iff_exists.mp (hraw z hz)
        subst hq
        rfl
      have hdot := dotLO_isSome _ _ hdrow hbeta
      obtain ⟨u, hu⟩ := Option.isSome_iff_exists.mp hdot
      obtain ⟨sv, hsv⟩ := Option.isSome_iff_exists.mp (i2rScale_isSome fitScale
        (((tbl.filter fun r => i2rMask r && r.scenario ≠ scen).map
            (i2rDesignRow model tref)).map fun row => dotLO row
          ((ridgeFitLO (i2rCols model)
            ((tbl.filter fun r => i2rMask r && r.scenario ≠ scen).map
              (i2rDesignRow model tref))
            ((tbl.filter fun r => i2rMask r && r.scenario ≠ scen).map
              fun r => some (posResidW r)) ridge).map (omax (some 0))))
        ((tbl.filter fun r => i2rMask r && r.scenario ≠ scen).map
          fun r => some (r.resid / 1000)))
      rw [hu, hsv]
      exact ⟨max 0 (u * sv), rfl, le_max_left 0 _⟩

theorem physCandidate_beta_nonneg (E : ℚ → ℚ) (terms : PhysTerms)
    (tref ridge gamma : ℚ) (train : List CovRow) (cand : ℚ × ℚ × List ℚ)
    (h : physCandidate E terms tref ridge train gamma = some cand) :
    ∀ b ∈ cand.2.2, 0 ≤ b := by
  simp only [physCandidate] at h
  by_cases h0 : physCols terms = 0
  · rw [if_pos h0] at h
    exact absurd h (by simp)
  · rw [if_neg h0] at h
    by_cases h1 : (List.map posResidW train).length < physCols terms + 1
    · rw [if_pos h1] at h
      exact absurd h (by simp)
    · rw [if_neg h1] at h
      obtain rfl := Option.some.inj h
      intro b hb
      obtain ⟨x, _, rfl⟩ := List.mem_map.mp hb
      exact le_max_left 0 x

theorem physBetter_cases (best : Option (ℚ × ℚ × List ℚ))
    (cand c2 : ℚ × ℚ × List ℚ) (h : physBetter best cand = some c2) :
    c2 = cand ∨ best = some c2 := by
  rcases best with _ | b
  · exact Or.inl (Option.some.inj h).symm
  · by_cases hlt : cand.1 < b.1
    · have h2 : (if cand.1 < b.1 then some cand else some b) = some c2 := h
      rw [if_pos hlt] at h2
      exact Or.inl (Option.some.inj h2).symm
    · have h2 : (if cand.1 < b.1 then some cand else some b) = some c2 := h
      rw [if_neg hlt] at h2
      exact Or.inr h2

theorem physStep_inv (E : ℚ → ℚ) (terms : PhysTerms) (tref ridge : ℚ)
    (train : List CovRow) (g : ℚ) (acc : Option (ℚ × ℚ × List ℚ))
    (hacc : ∀ cand, acc = some cand → ∀ b ∈ cand.2.2, 0 ≤ b) :
    ∀ cand, physStep E terms tref ridge train acc g = some cand →
      ∀ b ∈ cand.2.2, 0 ≤ b := by
  intro cand h
  unfold physStep at h
  rcases hpc : physCandidate E terms tref ridge train g with _ | pc
  · rw [hpc] at h
    exact hacc cand h
  · rw [hpc] at h
    have h2 : physBetter acc pc = some cand := h
    rcases physBetter_cases acc pc cand h2 with rfl | hEq
    · exact physCandidate_beta_nonneg E terms tref ridge g train _ hpc
    · exact hacc cand hEq

theorem physBest_go_beta_nonneg (E : ℚ → ℚ) (terms : PhysTerms) (tref ridge : ℚ)
    (train : List CovRow) :
    ∀ (gammas : List ℚ) (acc : Option (ℚ × ℚ × List ℚ)),
      (∀ cand, acc = some cand → ∀ b ∈ cand.2.2, 0 ≤ b) →
      ∀ cand, gammas.foldl (physStep E terms tref ridge train) acc = some cand →
        ∀ b ∈ cand.2.2, 0 ≤ b := by
  intro gammas
  induction gammas with
  | nil => intro acc hacc cand h; exact hacc cand h
  | cons g gs ih =>
    intro acc hacc cand h
    rw [List.foldl_cons] at h
    exact ih _ (physStep_inv E terms tref ridge train g acc hacc) cand h

/-- Claim C6 (amended): in every leave-one-scenario-out fold of both secondary
correction-term fitters, the regression target is the nonnegative positive part
max(0, resid)/1000 of the run-level residual; for the physical leak/background
fitter (whose mask requires every consumed covariate finite) every fitted
loss-term coefficient is ≥ 0 after the post-solve clamp and every applied
additive correction (including the optional safety clip) is ≥ 0 unconditionally;
for the I²R fitter the same holds provided every mask-passing row carries finite
(non-NaN) start-SOC and start-CPU-temperature covariates — a condition the I²R
mask itself does not check although its design matrix consumes both columns. -/
theorem C6_correction_nonneg (tbl : List CovRow) (model : I2rModel)
    (tref ridge clipFrac : ℚ) (fitScale : Bool) (scen : String) (E : ℚ → ℚ)
    (terms : PhysTerms) (gammas : List ℚ)
    (hfin : ∀ r ∈ tbl, i2rMask r = true → r.soc.isSome ∧ r.t_cpu.isSome) :
    (∀ r : CovRow, 0 ≤ posResidW r)
    ∧ (∀ b ∈ (i2rFold tbl model tref ridge fitScale scen).1, ∃ q, b = some q ∧ 0 ≤ q)
    ∧ (∀ p ∈ (i2rFold tbl model tref ridge fitScale scen).2.2,
        ∃ q, p = some q ∧ 0 ≤ q)
    ∧ (∀ b ∈ (physFold E tbl terms tref ridge gammas clipFrac scen).1, 0 ≤ b)
    ∧ (∀ p ∈ (physFold E tbl terms tref ridge gammas clipFrac scen).2, 0 ≤ p) := by
  obtain ⟨hi1, hi2⟩ := i2rFold_nonneg tbl model tref ridge fitScale scen hfin
  refine ⟨fun r => le_max_left 0 _, hi1, hi2, ?_, ?_⟩
  · intro b hb
    rcases hbest : physBest E terms tref ridge
        (tbl.filter fun r => physMask r && r.scenario ≠ scen) gammas with _ | best
    · simp only [physFold, hbest] at hb
      simp at hb
    · simp only [physFold, hbest] at hb
      exact physBest_go_beta_nonneg E terms tref ridge _ gammas none
        (fun cand hc => absurd hc (by simp)) best hbest b hb
  · intro p hp
    rcases hbest : physBest E terms tref ridge
        (tbl.filter fun r => physMask r && r.scenario ≠ scen) gammas with _ | best
    · simp only [physFold, hbest] at hp
      obtain ⟨x, _, rfl⟩ := List.mem_map.mp hp
      exact le_refl 0
    · simp only [physFold, hbest] at hp
      split_ifs at hp
      · obtain ⟨q, r, hq, hr, rfl⟩ := mem_zipWith_ex _ hp
        obtain ⟨x, _, rfl⟩ := List.mem_map.mp hq
        exact le_min (le_max_left 0 _) (le_max_left 0 _)
      · obtain ⟨x, _, rfl⟩ := List.mem_map.mp hp
        exact le_max_left 0 _

set_option maxRecDepth 2000 in
/-- Claim C6 witness: the concrete three-row covariate table has all covariates
present, so the theorem applies; the held-out-B fold of the I²R fitter
(constant-R0 model) has the single fitted, clamped coefficient 4000000/2000001,
and every coefficient and applied correction of the fold is a nonnegative
number. -/
theorem C6_correction_nonneg_witness :
    (∀ r ∈ c6tbl, i2rMask r = true → r.soc.isSome ∧ r.t_cpu.isSome)
    ∧ some ((4000000 : ℚ) / 2000001)
        ∈ (i2rFold c6tbl I2rModel.r0 40 (1 / 1000000) false "B").1
    ∧ (∀ b ∈ (i2rFold c6tbl I2rModel.r0 40 (1 / 1000000) false "B").1,
        ∃ q, b = some q ∧ 0 ≤ q)
    ∧ (∀ p ∈ (i2rFold c6tbl I2rModel.r0 40 (1 / 1000000) false "B").2.2,
        ∃ q, p = some q ∧ 0 ≤ q) := by
  have hfin : ∀ r ∈ c6tbl, i2rMask r = true → r.soc.isSome ∧ r.t_cpu.isSome := by
    intro r hr _
    simp only [c6tbl, List.mem_cons, List.not_mem_nil, or_false] at hr
    rcases hr with rfl | rfl | rfl <;> exact ⟨rfl, rfl⟩
  refine ⟨hfin, ?_, ?_, ?_⟩
  · have h : (i2rFold c6tbl I2rModel.r0 40 (1 / 1000000) false "B").1
        = [some (4000000 / 2000001)] := by
      norm_num +decide [i2rFold, c6tbl, i2rMask, i2rDesignRow, i2rCols, posResidW,
        i2rScale, ridgeFitLO, gramRidgeO, gramEntryO, xtyO, gaussSolveO, gaussElimO,
        findPivotO, rowElimO, dotLO, oadd_ss, oadd_nl, oadd_nr, osub_ss, osub_nl,
        osub_nr, omul_ss, omul_nl, omul_nr, odiv_ss, odiv_nl, odiv_nr, omax_ss,
        omax_nl, omax_nr, List.range_succ, List.range_zero, List.map_cons,
        List.map_nil, List.foldl_cons, List.foldl_nil, List.nil_append,
        List.cons_append, List.getD_cons_zero, List.getD_cons_succ, List.filter_cons,
        List.filter_nil, List.zip_cons_cons, List.zip_nil_right,
        List.zipWith_cons_cons, List.zipWith_nil_right, List.headD_cons,
        List.tail_cons, Option.some.injEq, ne_eq, none_eq_someQ, some_eq_noneQ]
    rw [h]
    simp
  · exact (C6_correction_nonneg c6tbl I2rModel.r0 40 (1 / 1000000) 0 false "B"
      (fun _ => 1) ⟨false, false, true⟩ [0] hfin).2.1
  · exact (C6_correction_nonneg c6tbl I2rModel.r0 40 (1 / 1000000) 0 false "B"
      (fun _ => 1) ⟨false, false, true⟩ [0] hfin).2.2.1

set_option maxRecDepth 2000 in
/-- Claim C6 counterexample (the code bug): the I²R mask checks only the residual
and the squared current, so a training row with a missing start SOC still enters
the design matrix.  On this concrete table the normal-equation solve propagates
the NaN, np.maximum(beta, 0) keeps it, and the fold's fitted coefficient vector
is [NaN, NaN] rather than a vector of nonnegative numbers: the claimed sign
invariant fails on the I²R fitter as implemented. -/
theorem C6_counterexample :
    ¬ ∀ (tbl : List CovRow) (model : I2rModel) (tref ridge : ℚ)
        (fitScale : Bool) (scen : String),
        (∀ b ∈ (i2rFold tbl model tref ridge fitScale scen).1,
          ∃ q, b = some q ∧ 0 ≤ q)
        ∧ (∀ p ∈ (i2rFold tbl model tref ridge fitScale scen).2.2,
            ∃ q, p = some q ∧ 0 ≤ q) := by
  intro h
  obtain ⟨h1, _⟩ := h c6badTbl I2rModel.r0Rsoc 40 (1 / 1000000) false "B"
  have hev : (i2rFold c6badTbl I2rModel.r0Rsoc 40 (1 / 1000000) false "B").1
      = [none, none] := by
    norm_num +decide [i2rFold, c6badTbl, i2rMask, i2rDesignRow, i2rCols, posResidW,
      i2rScale, ridgeFitLO, gramRidgeO, gramEntryO, xtyO, gaussSolveO, gaussElimO,
      findPivotO, rowElimO, dotLO, oadd_ss, oadd_nl, oadd_nr, osub_ss, osub_nl,
      osub_nr, omul_ss, omul_nl, omul_nr, odiv_ss, odiv_nl, odiv_nr, omax_ss,
      omax_nl, omax_nr, List.range_succ, List.range_zero, List.map_cons,
      List.map_nil, List.foldl_cons, List.foldl_nil, List.nil_append,
      List.cons_append, List.getD_cons_zero, List.getD_cons_succ, List.filter_cons,
      List.filter_nil, List.zip_cons_cons, List.zip_nil_right,
      List.zipWith_cons_cons, List.zipWith_nil_right, List.headD_cons,
      List.tail_cons, Option.some.injEq, ne_eq, none_eq_someQ, some_eq_noneQ]
  obtain ⟨q, hq, _⟩ := h1 none (by rw [hev]; simp)
  exact Option.noConfusion hq

theorem dedup_const {α : Type} [DecidableEq α] (a : α) :
    ∀ l : List α, l ≠ [] → (∀ x ∈ l, x = a) → l.dedup = [a] := by
  intro l
  induction l with
  | nil => intro h _; exact absurd rfl h
  | cons x xs ih =>
    intro _ hall
    have hx : x = a := hall x (by simp)
    subst hx
    rcases eq_or_ne xs [] with rfl | hne
    · simp
    · rw [List.dedup_cons_of_mem]
      · exact ih hne fun y hy => hall y (by simp [hy])
      · obtain ⟨y, hy⟩ := List.exists_mem_of_ne_nil xs hne
        have hyx : y = x := hall y (by simp [hy])
        rwa [hyx] at hy

theorem map_filter_comm {α β : Type} (f : α → β) (p : β → Bool) :
    ∀ l : List α, (l.filter fun a => p (f a)).map f = (l.map f).filter p := by
  intro l
  induction l with
  | nil => rfl
  | cons x xs ih =>
    cases h : p (f x) with
    | true => simp [List.filter_cons, h, ih]
    | false => simp [List.filter_cons, h, ih]

theorem mem_runNamesSorted (tbl : List Sample) (r : String) :
    r ∈ runNamesSorted tbl ↔ ∃ s ∈ tbl, s.run_name = r := by
  unfold runNamesSorted
  rw [mem_isortBy, List.mem_dedup]
  simp [List.mem_map, eq_comm]

theorem length_runNamesSorted (tbl : List Sample) :
    (runNamesSorted tbl).length = (tbl.map fun s => s.run_name).toFinset.card := by
  unfold runNamesSorted
  rw [length_isortBy, List.card_toFinset]

/-- Claim C7: on a dataset whose prepared table (rows with measured power, runs
with at least 30 such rows) has exactly 5 distinct run names, the
leave-one-run-out evaluation produces exactly 5 folds; each fold's test partition
is nonempty, consists of exactly 1 run, is disjoint from its training partition,
the training partition consists of exactly 4 runs, and together they cover the
prepared table. -/
theorem C7_looro_folds (tbl : List Sample)
    (h5 : (runNamesSorted (evalPrep tbl)).length = 5) :
    (looroFolds (evalPrep tbl)).length = 5
    ∧ ∀ f ∈ looroFolds (evalPrep tbl),
        f.test ≠ []
        ∧ (runNamesSorted f.test).length = 1
        ∧ (runNamesSorted f.train).length = 4
        ∧ (∀ s ∈ f.test, s ∉ f.train)
        ∧ (∀ s ∈ evalPrep tbl, s ∈ f.test ∨ s ∈ f.train) := by
  constructor
  · unfold looroFolds
    rw [List.length_map]
    exact h5
  · intro f hf
    unfold looroFolds at hf
    obtain ⟨r, hr, rfl⟩ := List.mem_map.mp hf
    obtain ⟨s0, hs0, hs0r⟩ := (mem_runNamesSorted (evalPrep tbl) r).mp hr
    have hs0test : s0 ∈ (evalPrep tbl).filter fun s => s.run_name = r :=
      List.mem_filter.mpr ⟨hs0, by simp [hs0r]⟩
    refine ⟨?_, ?_, ?_, ?_, ?_⟩
    · exact List.ne_nil_of_mem hs0test
    · unfold runNamesSorted
      rw [length_isortBy]
      rw [dedup_const r]
      · rfl
      · simp only [ne_eq, List.map_eq_nil_iff]
        exact List.ne_nil_of_mem hs0test
      · intro nm hnm
        obtain ⟨s1, hs1, rfl⟩ := List.mem_map.mp hnm
        exact of_decide_eq_true (List.mem_filter.mp hs1).2
    · rw [length_runNamesSorted]
      have hcomm : (((evalPrep tbl).filter fun s => s.run_name ≠ r).map
            fun s => s.run_name)
          = ((evalPrep tbl).map fun s => s.run_name).filter fun nm => nm ≠ r :=
        map_filter_comm (fun s => s.run_name) (fun nm => nm ≠ r) (evalPrep tbl)
      rw [hcomm, List.toFinset_filter]
      have hfe : (((evalPrep tbl).map fun s => s.run_name).toFinset.filter
            fun nm => (decide (nm ≠ r)) = true)
          = ((evalPrep tbl).map fun s => s.run_name).toFinset.filter
            fun nm => nm ≠ r := by
        apply Finset.filter_congr
        intro x _
        simp
      rw [hfe, Finset.filter_ne']
      rw [Finset.card_erase_of_mem]
      · rw [length_runNamesSorted] at h5
        omega
      · rw [List.mem_toFinset]
        exact List.mem_map.mpr ⟨s0, hs0, hs0r⟩
    · intro s hstest hstrain
      have h1 := of_decide_eq_true (List.mem_filter.mp hstest).2
      have h2 := of_decide_eq_true (List.mem_filter.mp hstrain).2
      exact h2 h1
    · intro s hs
      by_cases hsr : s.run_name = r
      · exact Or.inl (List.mem_filter.mpr ⟨hs, by simp [hsr]⟩)
      · exact Or.inr (List.mem_filter.mpr ⟨hs, by simp [hsr]⟩)

set_option maxRecDepth 2000 in
/-- Claim C7 witness: the concrete 5-run × 30-sample dataset produces exactly
5 leave-one-run-out folds. -/
theorem C7_looro_folds_witness :
    (looroFolds (evalPrep c7tbl)).length = 5 :=
  (C7_looro_folds c7tbl (by decide)).1

theorem length_gaussElim : ∀ (n : Nat) (rows : List (List ℚ × ℚ)),
    (gaussElim n rows).length = n := by
  intro n
  induction n with
  | zero => intro rows; rfl
  | succ n ih =>
    intro rows
    unfold gaussElim
    rcases h : findPivot rows with _ | pr <;> simp [h, ih]

theorem length_ridgeFitL (p : Nat) (X : List (List ℚ)) (y : List ℚ) (alpha : ℚ) :
    (ridgeFitL p X y alpha).length = p := by
  unfold ridgeFitL gaussSolve
  exact length_gaussElim p _

/-- Claim C2 (amended): the base power coefficients (intercept, screen slope, CPU
slope, leakage magnitude) are fit only on the samples where both the GPS and the
cellular flags are ON (≥ 0.5 after the 0 resp. 1 fills), but by one single
closed-form ridge-regularized least-squares solve with the given ridge strength —
not by Huber-weighted IRLS, which the repository uses only inside the scenario
covariate-adjustment fitter. -/
theorem C2_base_single_ridge (E : ℚ → ℚ) (tbl : List Sample)
    (alpha gamma mix : ℚ) (thermal2 : Bool) :
    ([(fitPowerModelV2 E tbl alpha gamma thermal2 mix).p_base_mW,
      (fitPowerModelV2 E tbl alpha gamma thermal2 mix).k_screen,
      (fitPowerModelV2 E tbl alpha gamma thermal2 mix).k_cpu,
      (fitPowerModelV2 E tbl alpha gamma thermal2 mix).k_leak_mW]
        = [(pmBaseBeta E tbl alpha gamma thermal2 mix).getD 0 0,
           (pmBaseBeta E tbl alpha gamma thermal2 mix).getD 1 0,
           (pmBaseBeta E tbl alpha gamma thermal2 mix).getD 2 0,
           (pmBaseBeta E tbl alpha gamma thermal2 mix).getD 3 0])
    ∧ pmBaseBeta E tbl alpha gamma thermal2 mix
        = ridgeFitL 4 (pmBaseX E gamma thermal2 mix tbl) (pmBaseY thermal2 mix tbl) alpha
    ∧ (pmBaseBeta E tbl alpha gamma thermal2 mix).length = 4
    ∧ ∀ r ∈ (pmDf2 thermal2 mix tbl).filter pmBaseMask,
        (1 : ℚ) / 2 ≤ r.s.is_gps_on.getD 0 ∧ (1 : ℚ) / 2 ≤ r.s.cellular_on.getD 1 := by
  refine ⟨rfl, rfl, length_ridgeFitL 4 _ _ alpha, ?_⟩
  intro r hr
  have hm := (List.mem_filter.mp hr).2
  unfold pmBaseMask at hm
  simp only [Bool.and_eq_true, decide_eq_true_eq] at hm
  exact hm

set_option maxHeartbeats 3200000 in
/-- Claim C2 (counterexample): on a concrete four-sample table at constant
temperature (leak feature ≡ exp 0 = 1) whose measured power is exactly its screen
proxy, the base coefficients of fit_power_model_v2 with ridge strength 2000 are the
shrunk vector with screen slope 7010751/1012012751, while Huber IRLS (as
implemented by fit_huber_irls, at its default threshold 1.5 and iteration cap 30)
converges immediately to the exactly interpolating least-squares solution with
screen slope 1: the base fit is not a Huber IRLS fit. -/
theorem C2_counterexample :
    ¬ ∀ (E S : ℚ → ℚ) (tbl : List Sample) (alpha gamma mix : ℚ) (thermal2 : Bool),
        pmBaseBeta E tbl alpha gamma thermal2 mix
          = fitHuberIrls S (pmBaseX E gamma thermal2 mix tbl)
              (pmBaseY thermal2 mix tbl) (3 / 2) 30 := by
  intro h
  have hc := h (fun _ => 1) (fun q => q) c2tbl 2000 0 (7 / 10) false
  have hX : pmBaseX (fun _ => 1) 0 false (7 / 10) c2tbl
      = [[1, 0, 0, 1], [1, 1, 0, 1], [1, 2, 1, 1], [1, 3, 1, 1]] := by
    norm_num +decide [pmBaseX, pmDf2, pmBaseMask, pmFeatRow, pmTRef, medianQ, qsortAsc,
      isortBy, insertLe, runNamesSorted, strLe, lexLe, pmPrep, leakTempsRun,
      simulateTemperature1State, fitThermal1State, thermalSamples1, pairs1, tAmb1,
      tCpuFilled, fillFB, bfill, ffill, ffillGo, firstValid, allNone, colNum, sortByT,
      tLe, dtFilled, pHeat, minQD, scanSt, temp1Step, FV.fillna, FV.usableDt, FV.isPos,
      c2tbl, baseSample, List.getD, List.head?, Option.getD, Option.map,
      List.range_succ, List.range_zero]
  have hY : pmBaseY false (7 / 10) c2tbl = [0, 1, 2, 3] := by
    norm_num +decide [pmBaseY, pmDf2, pmBaseMask, pmTRef, medianQ, qsortAsc,
      isortBy, insertLe, runNamesSorted, strLe, lexLe, pmPrep, leakTempsRun,
      simulateTemperature1State, fitThermal1State, thermalSamples1, pairs1, tAmb1,
      tCpuFilled, fillFB, bfill, ffill, ffillGo, firstValid, allNone, colNum, sortByT,
      tLe, dtFilled, pHeat, minQD, scanSt, temp1Step, FV.fillna, FV.usableDt, FV.isPos,
      c2tbl, baseSample, List.getD, List.head?, Option.getD, Option.map]
  have hB : pmBaseBeta (fun _ => 1) c2tbl 2000 0 false (7 / 10)
      = ridgeFitL 4 (pmBaseX (fun _ => 1) 0 false (7 / 10) c2tbl)
          (pmBaseY false (7 / 10) c2tbl) 2000 := rfl
  rw [hB, hX, hY] at hc
  have hR : ridgeFitL 4 [[1, 0, 0, 1], [1, 1, 0, 1], [1, 2, 1, 1], [1, 3, 1, 1]]
      [0, 1, 2, 3] 2000
      = [3000500 / 1012012751, 7010751 / 1012012751, 2504000 / 1012012751,
         3000500 / 1012012751] := by
    norm_num +decide [ridgeFitL, gramRidge, gramEntry, xty, gaussSolve, gaussElim,
      findPivot, rowElim, dotL, List.range_succ, List.range_zero, List.getD,
      Option.getD, Option.map, List.head?]
  have hH : fitHuberIrls (fun q => q)
      [[1, 0, 0, 1], [1, 1, 0, 1], [1, 2, 1, 1], [1, 3, 1, 1]] [0, 1, 2, 3]
      (3 / 2) 30 = [0, 1, 0, 0] := by
    norm_num +decide [fitHuberIrls, irlsLoop, irlsResolve, lstsqNE, madScale, varQ,
      huberWeight, gramW, xtyW, residVec, maxAbsDiff, meanQ, medianQ, qsortAsc, isortBy,
      insertLe, gramRidge, gramEntry, xty, gaussSolve, gaussElim, findPivot, rowElim,
      dotL, List.range_succ, List.range_zero, List.getD, Option.getD, Option.map,
      List.head?]
  rw [hR, hH] at hc
  norm_num at hc
